import Mathlib

/-!
Verification of the firegen core (declarative firewalld configuration
generator) against its natural-language specification.

The JavaScript sources are shallowly embedded: strings are lists of
characters (`Str`), JS objects become Lean structures following the
configuration data model, and every function is a total, executable Lean
function.  Scanning functions that consume more than one character per
step take an explicit fuel argument (always instantiated with the length
of the scanned list) so that they reduce definitionally.
-/

set_option maxHeartbeats 1000000

namespace Firegen

/-- Strings are modelled as lists of characters. -/
abbrev Str := List Char

/-- Convert a Lean string literal to the character-list model. -/
def S (s : String) : Str := s.toList

/-- JS `\s` character class (ASCII part), used by the variable pattern. -/
def isWsC (c : Char) : Bool :=
  c = ' ' || c = '\t' || c = '\n' || c = '\r' || c = '\x0b' || c = '\x0c'

/-- JS `\w` character class: letters, digits and underscore. -/
def isWordC (c : Char) : Bool :=
  c.isAlpha || c.isDigit || c = '_'

theorem not_word_of_ws {c : Char} (h : isWsC c = true) : isWordC c = false := by
  simp only [isWsC, Bool.or_eq_true, decide_eq_true_eq] at h
  rcases h with ((((h | h) | h) | h) | h) | h <;> subst h <;> decide

theorem ws_ne_lbrace {c : Char} (h : isWsC c = true) : c ≠ '\x7b' := by
  simp only [isWsC, Bool.or_eq_true, decide_eq_true_eq] at h
  rcases h with ((((h | h) | h) | h) | h) | h <;> subst h <;> decide

theorem word_ne_lbrace {c : Char} (h : isWordC c = true) : c ≠ '\x7b' := by
  intro hc; subst hc; simp [isWordC] at h

/-- Body of the variable matcher, applied after the two opening braces. -/
def matchBody (rest : Str) : Option (Str × Nat) :=
  let w1 := rest.takeWhile isWsC
  let r1 := rest.dropWhile isWsC
  let nm := r1.takeWhile isWordC
  let r2 := r1.dropWhile isWordC
  if nm.isEmpty then none
  else
    let w2 := r2.takeWhile isWsC
    let r3 := r2.dropWhile isWsC
    match r3 with
    | d0 :: d1 :: _ =>
      if d0 = '\x7d' ∧ d1 = '\x7d' then some (nm, 2 + w1.length + nm.length + w2.length + 2)
      else none
    | _ => none

/--
Match the regex `\x7b\x7b\s*(\w+)\s*\x7d\x7d` (the `VAR_PATTERN` of
template-engine.mjs) at the head of the input.  Returns the captured
name together with the total length of the match.
-/
def matchVar (s : Str) : Option (Str × Nat) :=
  match s with
  | c0 :: c1 :: rest => if c0 = '\x7b' ∧ c1 = '\x7b' then matchBody rest else none
  | _ => none

/-- The literal text of a `\x7b\x7bname\x7d\x7d` token with given inner whitespace. -/
def tokStr (w1 n w2 : Str) : Str :=
  '\x7b' :: '\x7b' :: (w1 ++ n ++ w2 ++ ['\x7d', '\x7d'])

/-- Variable values: a scalar string or an ordered list of strings. -/
inductive VarVal where
  | vstr (s : Str)
  | vlist (l : List Str)
deriving DecidableEq

/-- A variables mapping, in insertion order. -/
abbrev Vars := List (Str × VarVal)

/-- JS `name in variables` / `variables[name]` lookup. -/
def lookupVar (vars : Vars) (n : Str) : Option VarVal :=
  match vars with
  | [] => none
  | (k, v) :: rest => if k = n then some v else lookupVar rest n

/--
Fueled scanner for `substituteScalars` (template-engine.mjs): replace
every `\x7b\x7b name \x7d\x7d` occurrence.  `item` references and references to
array-valued or undefined variables are kept verbatim; an undefined
name is also recorded as a warning.  Advances by the whole match on a
match and by one character otherwise, exactly like the JS global regex
replace.
-/
def substAux (vars : Vars) : Nat → Str → Str × List Str
  | 0, s => (s, [])
  | _ + 1, [] => ([], [])
  | fuel + 1, c :: cs =>
    match matchVar (c :: cs) with
    | some (n, k) =>
      let matched := (c :: cs).take k
      let rest := (c :: cs).drop k
      let p := substAux vars fuel rest
      if n = S "item" then (matched ++ p.1, p.2)
      else
        match lookupVar vars n with
        | none => (matched ++ p.1, n :: p.2)
        | some (VarVal.vlist _) => (matched ++ p.1, p.2)
        | some (VarVal.vstr v) => (v ++ p.1, p.2)
    | none =>
      let p := substAux vars fuel cs
      (c :: p.1, p.2)

/-- `substituteScalars` of template-engine.mjs, on the character-list model. -/
def substituteScalars (vars : Vars) (s : Str) : Str × List Str :=
  substAux vars s.length s

/-- `resolveVariables` of template-engine.mjs: one substitution pass over
every variable value, always reading the pre-resolution map. -/
def resolveVariables (vars : Vars) : Vars :=
  vars.map fun (k, v) =>
    match v with
    | VarVal.vstr s => (k, VarVal.vstr (substituteScalars vars s).1)
    | VarVal.vlist l => (k, VarVal.vlist (l.map fun s => (substituteScalars vars s).1))

/-- `t` occurs as a contiguous segment of `l`. -/
def containsSeg (t l : Str) : Prop := ∃ u v, l = u ++ t ++ v

theorem containsSeg_cons {t l : Str} (c : Char) (h : containsSeg t l) :
    containsSeg t (c :: l) := by
  obtain ⟨u, v, rfl⟩ := h
  exact ⟨c :: u, v, rfl⟩

theorem containsSeg_append_left {t l : Str} (e : Str) (h : containsSeg t l) :
    containsSeg t (e ++ l) := by
  obtain ⟨u, v, rfl⟩ := h
  exact ⟨e ++ u, v, by simp⟩

theorem containsSeg_self_append (t v : Str) : containsSeg t (t ++ v) :=
  ⟨[], v, rfl⟩

/-- Boolean matcher for `containsSeg t l` (scan every suffix for a prefix). -/
def segB (t : Str) : Str → Bool
  | [] => decide (t = [])
  | c :: cs => t.isPrefixOf (c :: cs) || segB t cs

theorem isPrefixOf_iff_exists {t l : Str} : t.isPrefixOf l = true ↔ ∃ v, l = t ++ v := by
  induction t generalizing l with
  | nil => simp [List.isPrefixOf]
  | cons a t ih =>
    cases l with
    | nil => simp [List.isPrefixOf]
    | cons b l =>
      simp only [List.isPrefixOf, Bool.and_eq_true, beq_iff_eq, ih, List.cons_append,
        List.cons.injEq]
      constructor
      · rintro ⟨rfl, v, rfl⟩; exact ⟨v, rfl, rfl⟩
      · rintro ⟨v, rfl, rfl⟩; exact ⟨rfl, v, rfl⟩

theorem segB_iff {t l : Str} : segB t l = true ↔ containsSeg t l := by
  induction l with
  | nil =>
    simp only [segB, decide_eq_true_eq, containsSeg]
    constructor
    · rintro rfl; exact ⟨[], [], rfl⟩
    · rintro ⟨u, v, h⟩
      exact (List.append_eq_nil.mp (List.append_eq_nil.mp h.symm).1).2
  | cons c cs ih =>
    simp only [segB, Bool.or_eq_true, isPrefixOf_iff_exists, ih]
    constructor
    · rintro (⟨v, hv⟩ | h)
      · exact ⟨[], v, by simpa using hv⟩
      · exact containsSeg_cons c h
    · rintro ⟨u, v, h⟩
      cases u with
      | nil => exact Or.inl ⟨v, by simpa using h⟩
      | cons u0 us =>
        right
        rw [List.cons_append, List.cons_append] at h
        injection h with _ h2
        exact ⟨us, v, h2⟩

instance (t l : Str) : Decidable (containsSeg t l) :=
  decidable_of_iff (segB t l = true) segB_iff

theorem takeWhile_append_stop (p : Char → Bool) (y : Char) (hy : p y = false) :
    ∀ (x z : Str), (x ++ y :: z).takeWhile p = x.takeWhile p ∧
      (x ++ y :: z).dropWhile p = x.dropWhile p ++ y :: z := by
  intro x z
  induction x with
  | nil => simp [List.takeWhile, List.dropWhile, hy]
  | cons c cs ih =>
    simp only [List.cons_append, List.takeWhile, List.dropWhile]
    cases hpc : p c
    · simp
    · simp [ih.1, ih.2]

theorem takeWhile_of_all (p : Char → Bool) :
    ∀ (x : Str), (∀ c ∈ x, p c = true) → x.takeWhile p = x ∧ x.dropWhile p = [] := by
  intro x hx
  induction x with
  | nil => simp
  | cons c cs ih =>
    have hc : p c = true := hx c (by simp)
    have := ih fun d hd => hx d (by simp [hd])
    simp [List.takeWhile, List.dropWhile, hc, this.1, this.2]

theorem matchVar_cons2 (c0 c1 : Char) (rest : Str) :
    matchVar (c0 :: c1 :: rest)
      = if c0 = '\x7b' ∧ c1 = '\x7b' then matchBody rest else none := rfl

theorem matchVar_nil : matchVar [] = none := rfl

theorem matchVar_single (c : Char) : matchVar [c] = none := rfl

/-- Evaluation of the matcher body on a literal token followed by anything. -/
theorem matchBody_at_tok (w1 : Str) (n0 : Char) (nt w2 b : Str)
    (h1 : ∀ c ∈ w1, isWsC c = true) (h2 : ∀ c ∈ w2, isWsC c = true)
    (hn : ∀ c ∈ n0 :: nt, isWordC c = true) :
    matchBody (w1 ++ n0 :: (nt ++ (w2 ++ '\x7d' :: '\x7d' :: b)))
      = some (n0 :: nt, 2 + w1.length + (n0 :: nt).length + w2.length + 2) := by
  have hn0 : isWordC n0 = true := hn n0 (by simp)
  have hn0w : isWsC n0 = false := by
    cases h : isWsC n0
    · rfl
    · exact absurd hn0 (by simp [not_word_of_ws h])
  have tA := takeWhile_append_stop isWsC n0 hn0w w1 (nt ++ (w2 ++ '\x7d' :: '\x7d' :: b))
  have aA := takeWhile_of_all isWsC w1 h1
  have tB : (n0 :: (nt ++ (w2 ++ '\x7d' :: '\x7d' :: b))).takeWhile isWordC = n0 :: nt ∧
      (n0 :: (nt ++ (w2 ++ '\x7d' :: '\x7d' :: b))).dropWhile isWordC
        = w2 ++ '\x7d' :: '\x7d' :: b := by
    show ((n0 :: nt) ++ (w2 ++ '\x7d' :: '\x7d' :: b)).takeWhile isWordC = n0 :: nt ∧
      ((n0 :: nt) ++ (w2 ++ '\x7d' :: '\x7d' :: b)).dropWhile isWordC = w2 ++ '\x7d' :: '\x7d' :: b
    have aB := takeWhile_of_all isWordC (n0 :: nt) hn
    cases hw2 : w2 with
    | nil =>
      simp only [List.nil_append]
      have s1 := takeWhile_append_stop isWordC '\x7d' (by decide) (n0 :: nt) ('\x7d' :: b)
      exact ⟨by rw [s1.1, aB.1], by rw [s1.2, aB.2, List.nil_append]⟩
    | cons w20 w2t =>
      have hw20 : isWsC w20 = true := h2 w20 (by simp [hw2])
      simp only [List.cons_append]
      have s1 := takeWhile_append_stop isWordC w20 (not_word_of_ws hw20) (n0 :: nt)
        (w2t ++ '\x7d' :: '\x7d' :: b)
      have s1' : ((n0 :: nt) ++ w20 :: (w2t ++ '\x7d' :: '\x7d' :: b)).takeWhile isWordC
          = (n0 :: nt).takeWhile isWordC ∧
          ((n0 :: nt) ++ w20 :: (w2t ++ '\x7d' :: '\x7d' :: b)).dropWhile isWordC
          = (n0 :: nt).dropWhile isWordC ++ w20 :: (w2t ++ '\x7d' :: '\x7d' :: b) := s1
      constructor
      · show ((n0 :: nt) ++ w20 :: (w2t ++ '\x7d' :: '\x7d' :: b)).takeWhile isWordC = n0 :: nt
        rw [s1'.1, aB.1]
      · show ((n0 :: nt) ++ w20 :: (w2t ++ '\x7d' :: '\x7d' :: b)).dropWhile isWordC
          = w20 :: (w2t ++ '\x7d' :: '\x7d' :: b)
        rw [s1'.2, aB.2, List.nil_append]
  have tC : (w2 ++ '\x7d' :: '\x7d' :: b).takeWhile isWsC = w2 ∧
      (w2 ++ '\x7d' :: '\x7d' :: b).dropWhile isWsC = '\x7d' :: '\x7d' :: b := by
    have s1 := takeWhile_append_stop isWsC '\x7d' (by decide) w2 ('\x7d' :: b)
    have aC := takeWhile_of_all isWsC w2 h2
    exact ⟨by rw [s1.1, aC.1], by rw [s1.2, aC.2, List.nil_append]⟩
  simp only [matchBody]
  rw [tA.1, aA.1, tA.2, aA.2, List.nil_append, tB.1, tB.2, tC.1, tC.2]
  simp

/-- Completeness of the variable matcher: at the start of a literal token
it matches exactly that token and captures its name. -/
theorem matchVar_tok {w1 n w2 : Str} (b : Str)
    (h1 : ∀ c ∈ w1, isWsC c = true) (h2 : ∀ c ∈ w2, isWsC c = true)
    (hn : ∀ c ∈ n, isWordC c = true) (hne : n ≠ []) :
    matchVar (tokStr w1 n w2 ++ b) = some (n, (tokStr w1 n w2).length) := by
  obtain ⟨n0, nt, rfl⟩ := List.exists_cons_of_ne_nil hne
  have key : tokStr w1 (n0 :: nt) w2 ++ b
      = '\x7b' :: '\x7b' :: (w1 ++ n0 :: (nt ++ (w2 ++ '\x7d' :: '\x7d' :: b))) := by
    simp [tokStr]
  rw [key, matchVar_cons2, if_pos ⟨rfl, rfl⟩, matchBody_at_tok w1 n0 nt w2 b h1 h2 hn]
  have : (tokStr w1 (n0 :: nt) w2).length
      = 2 + w1.length + (n0 :: nt).length + w2.length + 2 := by
    simp [tokStr, List.length_append]
    omega
  rw [this]

/-- Soundness of the variable matcher: a successful match has exactly the
shape of a token followed by the rest of the input. -/
theorem matchVar_shape {s : Str} {n : Str} {k : Nat} (h : matchVar s = some (n, k)) :
    ∃ w1 w2 rest, s = tokStr w1 n w2 ++ rest ∧ k = (tokStr w1 n w2).length ∧
      (∀ c ∈ w1, isWsC c = true) ∧ (∀ c ∈ w2, isWsC c = true) ∧
      (∀ c ∈ n, isWordC c = true) ∧ n ≠ [] := by
  cases s with
  | nil => rw [matchVar_nil] at h; exact Option.noConfusion h
  | cons c0 s0 =>
    cases s0 with
    | nil => rw [matchVar_single] at h; exact Option.noConfusion h
    | cons c1 rest0 =>
      rw [matchVar_cons2] at h
      by_cases hbr : c0 = '\x7b' ∧ c1 = '\x7b'
      · obtain ⟨rfl, rfl⟩ := hbr
        rw [if_pos ⟨rfl, rfl⟩] at h
        simp only [matchBody] at h
        by_cases hempty : ((rest0.dropWhile isWsC).takeWhile isWordC).isEmpty = true
        · rw [if_pos hempty] at h; exact Option.noConfusion h
        · rw [if_neg hempty] at h
          split at h
          · rename_i d0 d1 tail hA3
            split at h
            · rename_i hd
              obtain ⟨rfl, rfl⟩ := hd
              simp only [Option.some.injEq, Prod.mk.injEq] at h
              obtain ⟨rfl, rfl⟩ := h
              refine ⟨rest0.takeWhile isWsC, ((rest0.dropWhile isWsC).dropWhile
                isWordC).takeWhile isWsC, tail, ?_, ?_, ?_, ?_, ?_, ?_⟩
              · have e2 : (rest0.dropWhile isWsC).dropWhile isWordC
                    = ((rest0.dropWhile isWsC).dropWhile isWordC).takeWhile isWsC
                      ++ ('\x7d' :: '\x7d' :: tail) := by
                  conv_lhs => rw [← List.takeWhile_append_dropWhile isWsC
                    ((rest0.dropWhile isWsC).dropWhile isWordC)]
                  rw [hA3]
                have e1 : rest0.dropWhile isWsC
                    = (rest0.dropWhile isWsC).takeWhile isWordC
                      ++ (((rest0.dropWhile isWsC).dropWhile isWordC).takeWhile isWsC
                      ++ ('\x7d' :: '\x7d' :: tail)) := by
                  conv_lhs => rw [← List.takeWhile_append_dropWhile isWordC
                    (rest0.dropWhile isWsC)]
                  rw [← e2]
                have e0 : rest0
                    = rest0.takeWhile isWsC
                      ++ ((rest0.dropWhile isWsC).takeWhile isWordC
                      ++ (((rest0.dropWhile isWsC).dropWhile isWordC).takeWhile isWsC
                      ++ ('\x7d' :: '\x7d' :: tail))) := by
                  conv_lhs => rw [← List.takeWhile_append_dropWhile isWsC rest0]
                  rw [← e1]
                conv_lhs => rw [e0]
                simp [tokStr, List.append_assoc]
              · simp [tokStr, List.length_append]
                omega
              · exact fun c hc => List.mem_takeWhile_imp hc
              · exact fun c hc => List.mem_takeWhile_imp hc
              · exact fun c hc => List.mem_takeWhile_imp hc
              · intro hnil; rw [hnil] at hempty; simp at hempty
            · exact Option.noConfusion h
          · exact Option.noConfusion h
      · rw [if_neg hbr] at h; exact Option.noConfusion h

theorem lbrace_not_mem_tok_tail {w1 m w2 : Str}
    (hws1 : ∀ c ∈ w1, isWsC c = true) (hws2 : ∀ c ∈ w2, isWsC c = true)
    (hword : ∀ c ∈ m, isWordC c = true) :
    '\x7b' ∉ (w1 ++ m ++ w2 ++ ['\x7d', '\x7d'] : Str) := by
  intro hmem
  simp only [List.mem_append, List.mem_cons] at hmem
  rcases hmem with ((h | h) | h) | h
  · exact ws_ne_lbrace (hws1 _ h) rfl
  · exact word_ne_lbrace (hword _ h) rfl
  · exact ws_ne_lbrace (hws2 _ h) rfl
  · simp at h

/-- A match that begins strictly inside a nonempty prefix `a` of
`a ++ tokStr … ++ b` never extends past `a`: the token's opening braces
cannot occur inside the whitespace/word/closing region of a match. -/
theorem matchVar_le_of_ne {a w1 n w2 b : Str} {m : Str} {k : Nat} (ha : a ≠ [])
    (h : matchVar (a ++ (tokStr w1 n w2 ++ b)) = some (m, k)) : k ≤ a.length := by
  obtain ⟨w1', w2', rest, hs, hk, hws1, hws2, hword, hmne⟩ := matchVar_shape h
  by_contra hgt
  push_neg at hgt
  have hk5 : 5 ≤ k := by
    obtain ⟨m0, mt, rfl⟩ := List.exists_cons_of_ne_nil hmne
    rw [hk]
    simp [tokStr, List.length_append]
    omega
  have hM : (a ++ (tokStr w1 n w2 ++ b)).take k = tokStr w1' m w2' := by
    rw [hs, hk, List.take_left]
  rw [List.take_append_eq_append_take,
      List.take_of_length_le (Nat.le_of_lt hgt)] at hM
  have hpos : 1 ≤ k - a.length := by omega
  have tokshape : tokStr w1 n w2 ++ b
      = '\x7b' :: ('\x7b' :: (w1 ++ n ++ w2 ++ ['\x7d', '\x7d'] ++ b)) := by
    simp [tokStr]
  have hbmem : '\x7b' ∈ (tokStr w1 n w2 ++ b).take (k - a.length) := by
    rw [tokshape, List.take_cons hpos]
    exact List.mem_cons_self _ _
  have htail : '\x7b' ∉ (tokStr w1' m w2').drop 2 := by
    have : (tokStr w1' m w2').drop 2 = w1' ++ m ++ w2' ++ ['\x7d', '\x7d'] := by
      simp [tokStr]
    rw [this]
    exact lbrace_not_mem_tok_tail hws1 hws2 hword
  obtain ⟨a0, a', rfl⟩ := List.exists_cons_of_ne_nil ha
  cases a' with
  | nil =>
    -- `a` has length 1: the match is at least five characters long, so its
    -- tail region reaches the token's opening braces
    apply htail
    rw [← hM, tokshape]
    have hlen : (a0 :: ([] : Str)).length = 1 := rfl
    rw [hlen, List.take_cons (by omega), List.take_cons (by omega)]
    simp
  | cons a1 a2 =>
    apply htail
    rw [← hM]
    have hdrop : ((a0 :: a1 :: a2) ++ (tokStr w1 n w2 ++ b).take
        (k - (a0 :: a1 :: a2).length)).drop 2
        = a2 ++ (tokStr w1 n w2 ++ b).take (k - (a0 :: a1 :: a2).length) := rfl
    rw [hdrop]
    exact List.mem_append_right _ hbmem

theorem substAux_cons (vars : Vars) (fuel : Nat) (c : Char) (cs : Str) :
    substAux vars (fuel + 1) (c :: cs) =
      match matchVar (c :: cs) with
      | some (n, k) =>
        let matched := (c :: cs).take k
        let rest := (c :: cs).drop k
        let p := substAux vars fuel rest
        if n = S "item" then (matched ++ p.1, p.2)
        else
          match lookupVar vars n with
          | none => (matched ++ p.1, n :: p.2)
          | some (VarVal.vlist _) => (matched ++ p.1, p.2)
          | some (VarVal.vstr v) => (v ++ p.1, p.2)
      | none =>
        let p := substAux vars fuel cs
        (c :: p.1, p.2) := rfl

/-- Any undefined (and non-`item`-exempt) variable reference survives the
substitution scan verbatim and is recorded as a warning; `item`
references survive without a warning. -/
theorem substAux_tok_preserved (vars : Vars) {w1 n w2 : Str}
    (h1 : ∀ c ∈ w1, isWsC c = true) (h2 : ∀ c ∈ w2, isWsC c = true)
    (hn : ∀ c ∈ n, isWordC c = true) (hne : n ≠ [])
    (hmiss : lookupVar vars n = none) :
    ∀ fuel x y, (x ++ (tokStr w1 n w2 ++ y)).length ≤ fuel →
      containsSeg (tokStr w1 n w2) (substAux vars fuel (x ++ (tokStr w1 n w2 ++ y))).1 ∧
      (n ≠ S "item" → n ∈ (substAux vars fuel (x ++ (tokStr w1 n w2 ++ y))).2) := by
  intro fuel
  induction fuel with
  | zero =>
    intro x y hlen
    exfalso
    have h1tok : 1 ≤ (tokStr w1 n w2).length := by simp [tokStr]
    have h2tok : (tokStr w1 n w2).length ≤ (x ++ (tokStr w1 n w2 ++ y)).length := by
      simp only [List.length_append]
      omega
    omega
  | succ fuel ih =>
    intro x y hlen
    cases x with
    | nil =>
      simp only [List.nil_append]
      have hs : tokStr w1 n w2 ++ y
          = '\x7b' :: ('\x7b' :: ((w1 ++ n ++ w2 ++ ['\x7d', '\x7d']) ++ y)) := by
        simp [tokStr]
      have hmv : matchVar ('\x7b' :: ('\x7b' :: ((w1 ++ n ++ w2 ++ ['\x7d', '\x7d']) ++ y)))
          = some (n, (tokStr w1 n w2).length) := by
        rw [← hs]; exact matchVar_tok y h1 h2 hn hne
      have htake : ('\x7b' :: ('\x7b' :: ((w1 ++ n ++ w2 ++ ['\x7d', '\x7d'])
          ++ y))).take (tokStr w1 n w2).length = tokStr w1 n w2 := by
        rw [← hs]; exact List.take_left _ _
      rw [hs, substAux_cons]
      simp only [hmv, htake]
      by_cases hitem : n = S "item"
      · rw [if_pos hitem]
        exact ⟨containsSeg_self_append _ _, fun hni => absurd hitem hni⟩
      · rw [if_neg hitem]
        simp only [hmiss]
        exact ⟨containsSeg_self_append _ _, fun _ => List.mem_cons_self _ _⟩
    | cons c0 x' =>
      have hceq : (c0 :: x') ++ (tokStr w1 n w2 ++ y)
          = c0 :: (x' ++ (tokStr w1 n w2 ++ y)) := rfl
      cases hm : matchVar (c0 :: (x' ++ (tokStr w1 n w2 ++ y))) with
      | none =>
        rw [hceq, substAux_cons]
        simp only [hm]
        have hlen' : (x' ++ (tokStr w1 n w2 ++ y)).length ≤ fuel := by
          simp only [hceq, List.length_cons] at hlen
          omega
        have ihres := ih x' y hlen'
        exact ⟨containsSeg_cons c0 ihres.1, ihres.2⟩
      | some mk =>
        obtain ⟨m, k⟩ := mk
        have hm' : matchVar ((c0 :: x') ++ (tokStr w1 n w2 ++ y)) = some (m, k) := hm
        have hkle : k ≤ (c0 :: x').length :=
          matchVar_le_of_ne (List.cons_ne_nil c0 x') hm'
        have hk1 : 1 ≤ k := by
          obtain ⟨w1', w2', rest', _, hkk, _⟩ := matchVar_shape hm
          rw [hkk]
          simp [tokStr]
        have hdrop : (c0 :: (x' ++ (tokStr w1 n w2 ++ y))).drop k
            = ((c0 :: x').drop k) ++ (tokStr w1 n w2 ++ y) := by
          have hgen : ((c0 :: x') ++ (tokStr w1 n w2 ++ y)).drop k =
              (c0 :: x').drop k ++ (tokStr w1 n w2 ++ y).drop (k - (c0 :: x').length) :=
            List.drop_append_eq_append_drop
          rw [show k - (c0 :: x').length = 0 from by omega, List.drop_zero] at hgen
          exact hgen
        have hlen' : (((c0 :: x').drop k) ++ (tokStr w1 n w2 ++ y)).length ≤ fuel := by
          simp only [List.length_append, List.length_drop, List.length_cons] at hlen ⊢
          omega
        have ihres := ih ((c0 :: x').drop k) y hlen'
        rw [hceq, substAux_cons]
        simp only [hm, hdrop]
        by_cases hitem : m = S "item"
        · rw [if_pos hitem]
          exact ⟨containsSeg_append_left _ ihres.1, ihres.2⟩
        · rw [if_neg hitem]
          cases hlk : lookupVar vars m with
          | none =>
            simp only
            exact ⟨containsSeg_append_left _ ihres.1,
              fun hni => List.mem_cons_of_mem _ (ihres.2 hni)⟩
          | some v =>
            cases v with
            | vstr s =>
              simp only
              exact ⟨containsSeg_append_left _ ihres.1, ihres.2⟩
            | vlist l =>
              simp only
              exact ⟨containsSeg_append_left _ ihres.1, ihres.2⟩

/--
Fueled scanner for the single-name replacement regexes of
template-engine.mjs (`ITEM_PATTERN` and `IPV_ANY_PATTERN`): replace every
`\x7b\x7b target \x7d\x7d` occurrence with `lit`, advancing one character past any
non-matching position.
-/
def replNamedAux (target lit : Str) : Nat → Str → Str
  | 0, s => s
  | _ + 1, [] => []
  | fuel + 1, c :: cs =>
    match matchVar (c :: cs) with
    | some (n, k) =>
      if n = target then lit ++ replNamedAux target lit fuel ((c :: cs).drop k)
      else c :: replNamedAux target lit fuel cs
    | none => c :: replNamedAux target lit fuel cs

theorem replNamedAux_cons (target lit : Str) (fuel : Nat) (c : Char) (cs : Str) :
    replNamedAux target lit (fuel + 1) (c :: cs) =
      match matchVar (c :: cs) with
      | some (n, k) =>
        if n = target then lit ++ replNamedAux target lit fuel ((c :: cs).drop k)
        else c :: replNamedAux target lit fuel cs
      | none => c :: replNamedAux target lit fuel cs := rfl

/-- Whenever the input contains a literal `\x7b\x7b target \x7d\x7d` token, the
replacement literal appears in the output of the named replacer. -/
theorem replNamedAux_hits (target lit : Str) {w1 w2 : Str}
    (h1 : ∀ c ∈ w1, isWsC c = true) (h2 : ∀ c ∈ w2, isWsC c = true)
    (hn : ∀ c ∈ target, isWordC c = true) (hne : target ≠ []) :
    ∀ fuel x y, (x ++ (tokStr w1 target w2 ++ y)).length ≤ fuel →
      containsSeg lit (replNamedAux target lit fuel (x ++ (tokStr w1 target w2 ++ y))) := by
  intro fuel
  induction fuel with
  | zero =>
    intro x y hlen
    exfalso
    have h1tok : 1 ≤ (tokStr w1 target w2).length := by simp [tokStr]
    have h2tok : (tokStr w1 target w2).length ≤ (x ++ (tokStr w1 target w2 ++ y)).length := by
      simp only [List.length_append]
      omega
    omega
  | succ fuel ih =>
    intro x y hlen
    cases x with
    | nil =>
      simp only [List.nil_append]
      have hs : tokStr w1 target w2 ++ y
          = '\x7b' :: ('\x7b' :: ((w1 ++ target ++ w2 ++ ['\x7d', '\x7d']) ++ y)) := by
        simp [tokStr]
      have hmv : matchVar ('\x7b' :: ('\x7b' :: ((w1 ++ target ++ w2 ++ ['\x7d', '\x7d'])
          ++ y))) = some (target, (tokStr w1 target w2).length) := by
        rw [← hs]; exact matchVar_tok y h1 h2 hn hne
      rw [hs, replNamedAux_cons]
      simp only [hmv, if_pos rfl]
      exact containsSeg_self_append _ _
    | cons c0 x' =>
      have hceq : (c0 :: x') ++ (tokStr w1 target w2 ++ y)
          = c0 :: (x' ++ (tokStr w1 target w2 ++ y)) := rfl
      cases hm : matchVar (c0 :: (x' ++ (tokStr w1 target w2 ++ y))) with
      | none =>
        rw [hceq, replNamedAux_cons]
        simp only [hm]
        have hlen' : (x' ++ (tokStr w1 target w2 ++ y)).length ≤ fuel := by
          simp only [hceq, List.length_cons] at hlen
          omega
        exact containsSeg_cons c0 (ih x' y hlen')
      | some mk =>
        obtain ⟨m, k⟩ := mk
        rw [hceq, replNamedAux_cons]
        simp only [hm]
        by_cases htgt : m = target
        · rw [if_pos htgt]
          exact containsSeg_self_append _ _
        · rw [if_neg htgt]
          have hlen' : (x' ++ (tokStr w1 target w2 ++ y)).length ≤ fuel := by
            simp only [hceq, List.length_cons] at hlen
            omega
          exact containsSeg_cons c0 (ih x' y hlen')

/-! ## Template-engine data model

Typed embedding of the configuration tree that `processTemplate`
(template-engine.mjs) operates on, following the data model of the
specification: zone array elements are plain strings or flat objects
with string/number/boolean fields plus an optional `loop` directive.
-/

/-- A field value inside an array-item object. -/
inductive FVal where
  | fs (s : Str)
  | fi (n : Int)
  | fb (b : Bool)
deriving DecidableEq

/-- An array-item object: flat fields plus the `loop` directive key. -/
structure Item where
  fields : List (Str × FVal)
  loop : Option Str
deriving DecidableEq

/-- A zone array element: a plain string or an object. -/
inductive ZElem where
  | plain (s : Str)
  | obj (it : Item)
deriving DecidableEq

/-- A zone field value: array, scalar string, or boolean. -/
inductive ZField where
  | arr (l : List ZElem)
  | sc (s : Str)
  | flag (b : Bool)
deriving DecidableEq

/-- A zone: its fields in insertion order. -/
abbrev Zone := List (Str × ZField)

/-- A rule inside a `rule_groups` entry. -/
structure GRule where
  priority : Int
  args : Str
  loop : Option Str
deriving DecidableEq

/-- A passthrough inside a `rule_groups` entry. -/
structure GPass where
  args : Str
  loop : Option Str
deriving DecidableEq

/-- A rule group's `ipv`: scalar or list (coerced to a list on expansion). -/
inductive IpvSpec where
  | one (s : Str)
  | many (l : List Str)
deriving DecidableEq

/-- A `rule_groups` entry. -/
structure RuleGroup where
  ipv : IpvSpec
  table : Str
  chain : Str
  rules : Option (List GRule)
  passthroughs : Option (List GPass)
deriving DecidableEq

/-- A direct chain entry. -/
structure DChain where
  ipv : Str
  table : Str
  chain : Str
deriving DecidableEq

/-- A direct rule entry. -/
structure DRule where
  ipv : Str
  table : Str
  chain : Str
  priority : Int
  args : Str
  loop : Option Str
deriving DecidableEq

/-- A direct passthrough entry. -/
structure DPass where
  ipv : Str
  args : Str
  loop : Option Str
deriving DecidableEq

/-- The `direct` block of a configuration. -/
structure TDirect where
  chains : Option (List DChain)
  rules : Option (List DRule)
  passthroughs : Option (List DPass)
  rule_groups : Option (List RuleGroup)
deriving DecidableEq

/-- A whole configuration as consumed by the template engine. -/
structure TConfig where
  variablesMap : Vars
  zones : List (Str × Zone)
  direct : Option TDirect
deriving DecidableEq

/-- Template-engine warnings (message strings abstracted to their kind). -/
inductive Warning where
  | missingVar (n : Str)
  | invalidLoopRef (ref : Str)
  | loopNotArray (n : Str)
deriving DecidableEq

/-- Whether a warning is one of the two loop-expansion warnings. -/
def loopWarn : Warning → Bool
  | Warning.invalidLoopRef _ => true
  | Warning.loopNotArray _ => true
  | Warning.missingVar _ => false

/-! ## Rule-group expansion (expandRuleGroups of template-engine.mjs) -/

/-- `IPV_ANY_MAP[ipv] || "0.0.0.0/0"`: the family-specific any-address
literal, falling back to the ipv4 literal. -/
def ipvAnyOf (ipv : Str) : Str :=
  if ipv = S "ipv4" then S "0.0.0.0/0"
  else if ipv = S "ipv6" then S "::/0"
  else S "0.0.0.0/0"

/-- Replace every `\x7b\x7b ipv_any \x7d\x7d` occurrence (`IPV_ANY_PATTERN`). -/
def replaceIpvAny (lit : Str) (s : Str) : Str :=
  replNamedAux (S "ipv_any") lit s.length s

/-- `if (rule.loop) expanded.loop = rule.loop` — the loop key is copied
only when truthy (non-empty). -/
def truthyLoop : Option Str → Option Str
  | some l => if l.isEmpty then none else some l
  | none => none

/-- Coerce a group `ipv` to a list (`Array.isArray(group.ipv) ? … : […]`). -/
def ipvListOf : IpvSpec → List Str
  | IpvSpec.one s => [s]
  | IpvSpec.many l => l

/-- `expandRuleGroups` of template-engine.mjs: realize each rule group
into one chain per family plus per-family copies of its rules and
passthroughs, substituting the wildcard-address token, and drop the
`rule_groups` key. -/
def expandRuleGroups (d : TDirect) : TDirect :=
  match d.rule_groups with
  | none => d
  | some groups =>
    let acc := groups.foldl
      (fun acc g =>
        (ipvListOf g.ipv).foldl
          (fun (acc : List DChain × List DRule × List DPass) ipv =>
            let anyAddr := ipvAnyOf ipv
            (acc.1 ++ [⟨ipv, g.table, g.chain⟩],
             acc.2.1 ++ (g.rules.getD []).map (fun r =>
               ⟨ipv, g.table, g.chain, r.priority,
                replaceIpvAny anyAddr r.args, truthyLoop r.loop⟩),
             acc.2.2 ++ (g.passthroughs.getD []).map (fun p =>
               ⟨ipv, replaceIpvAny anyAddr p.args, truthyLoop p.loop⟩)))
          acc)
      (d.chains.getD [], d.rules.getD [], d.passthroughs.getD [])
    ⟨some acc.1, some acc.2.1, some acc.2.2, none⟩

/-! ## Loop expansion and deep substitution -/

/-- Replace every `\x7b\x7b item \x7d\x7d` occurrence (`ITEM_PATTERN`). -/
def replItem (v : Str) (s : Str) : Str := replNamedAux (S "item") v s.length s

/-- One loop iteration: copy the object, delete `loop`, substitute the
current loop value into every string field. -/
def itemSubstItem (v : Str) (it : Item) : Item :=
  { fields := it.fields.map fun kv =>
      match kv.2 with
      | FVal.fs s => (kv.1, FVal.fs (replItem v s))
      | _ => kv,
    loop := none }

/-- First `\x7b\x7b name \x7d\x7d` match in a string (`loopRef.match(VAR_PATTERN)`). -/
def matchFirstName : Nat → Str → Option Str
  | 0, _ => none
  | _ + 1, [] => none
  | fuel + 1, c :: cs =>
    match matchVar (c :: cs) with
    | some (n, _) => some n
    | none => matchFirstName fuel cs

/-- The variable name referenced by a loop directive, if any. -/
def loopRefName (l : Str) : Option Str := matchFirstName l.length l

/-- Expansion of a single zone array element carrying a loop directive. -/
def expandZElem (vars : Vars) (e : ZElem) : List ZElem × List Warning :=
  match e with
  | ZElem.obj it =>
    match it.loop with
    | some l =>
      if l.isEmpty then ([e], [])
      else
        match loopRefName l with
        | none => ([e], [Warning.invalidLoopRef l])
        | some an =>
          match lookupVar vars an with
          | some (VarVal.vlist vs) => (vs.map fun v => ZElem.obj (itemSubstItem v it), [])
          | _ => ([e], [Warning.loopNotArray an])
    | none => ([e], [])
  | ZElem.plain _ => ([e], [])

/-- `expandLoops` of template-engine.mjs over a zone array field. -/
def expandLoopsZ (vars : Vars) (items : List ZElem) : List ZElem × List Warning :=
  ((items.map fun e => (expandZElem vars e).1).flatten,
   (items.map fun e => (expandZElem vars e).2).flatten)

/-- One loop iteration for a direct rule (string fields substituted,
`priority` untouched, `loop` removed). -/
def itemSubstDR (v : Str) (r : DRule) : DRule :=
  ⟨replItem v r.ipv, replItem v r.table, replItem v r.chain, r.priority,
   replItem v r.args, none⟩

/-- Expansion of a single direct rule carrying a loop directive. -/
def expandDRElem (vars : Vars) (r : DRule) : List DRule × List Warning :=
  match r.loop with
  | some l =>
    if l.isEmpty then ([r], [])
    else
      match loopRefName l with
      | none => ([r], [Warning.invalidLoopRef l])
      | some an =>
        match lookupVar vars an with
        | some (VarVal.vlist vs) => (vs.map fun v => itemSubstDR v r, [])
        | _ => ([r], [Warning.loopNotArray an])
  | none => ([r], [])

/-- `expandLoops` over `direct.rules`. -/
def expandLoopsDR (vars : Vars) (items : List DRule) : List DRule × List Warning :=
  ((items.map fun r => (expandDRElem vars r).1).flatten,
   (items.map fun r => (expandDRElem vars r).2).flatten)

/-- One loop iteration for a direct passthrough. -/
def itemSubstDP (v : Str) (p : DPass) : DPass :=
  ⟨replItem v p.ipv, replItem v p.args, none⟩

/-- Expansion of a single direct passthrough carrying a loop directive. -/
def expandDPElem (vars : Vars) (p : DPass) : List DPass × List Warning :=
  match p.loop with
  | some l =>
    if l.isEmpty then ([p], [])
    else
      match loopRefName l with
      | none => ([p], [Warning.invalidLoopRef l])
      | some an =>
        match lookupVar vars an with
        | some (VarVal.vlist vs) => (vs.map fun v => itemSubstDP v p, [])
        | _ => ([p], [Warning.loopNotArray an])
  | none => ([p], [])

/-- `expandLoops` over `direct.passthroughs`. -/
def expandLoopsDP (vars : Vars) (items : List DPass) : List DPass × List Warning :=
  ((items.map fun p => (expandDPElem vars p).1).flatten,
   (items.map fun p => (expandDPElem vars p).2).flatten)

/-- Substitute variables in one string, wrapping missing-name warnings. -/
def substStr (vars : Vars) (s : Str) : Str × List Warning :=
  ((substituteScalars vars s).1, (substituteScalars vars s).2.map Warning.missingVar)

/-- Deep substitution over an array-item object (every string value,
including the retained `loop` value, gets a substitution pass). -/
def substItem (vars : Vars) (it : Item) : Item × List Warning :=
  ({ fields := it.fields.map fun kv =>
      match kv.2 with
      | FVal.fs s => (kv.1, FVal.fs (substStr vars s).1)
      | _ => kv,
     loop := it.loop.map fun l => (substStr vars l).1 },
   (it.fields.map fun kv =>
      match kv.2 with
      | FVal.fs s => (substStr vars s).2
      | _ => []).flatten ++
   (match it.loop with
    | some l => (substStr vars l).2
    | none => []))

/-- Deep substitution over a zone array element. -/
def substZElem (vars : Vars) (e : ZElem) : ZElem × List Warning :=
  match e with
  | ZElem.plain s => (ZElem.plain (substStr vars s).1, (substStr vars s).2)
  | ZElem.obj it => (ZElem.obj (substItem vars it).1, (substItem vars it).2)

/-- Deep substitution over a zone array field. -/
def substZElems (vars : Vars) (l : List ZElem) : List ZElem × List Warning :=
  (l.map fun e => (substZElem vars e).1, (l.map fun e => (substZElem vars e).2).flatten)

/-- Deep substitution over a direct rule. -/
def substDR (vars : Vars) (r : DRule) : DRule × List Warning :=
  (⟨(substStr vars r.ipv).1, (substStr vars r.table).1, (substStr vars r.chain).1,
    r.priority, (substStr vars r.args).1, r.loop.map fun l => (substStr vars l).1⟩,
   (substStr vars r.ipv).2 ++ (substStr vars r.table).2 ++ (substStr vars r.chain).2 ++
   (substStr vars r.args).2 ++
   (match r.loop with
    | some l => (substStr vars l).2
    | none => []))

/-- Deep substitution over a direct passthrough. -/
def substDP (vars : Vars) (p : DPass) : DPass × List Warning :=
  (⟨(substStr vars p.ipv).1, (substStr vars p.args).1,
    p.loop.map fun l => (substStr vars l).1⟩,
   (substStr vars p.ipv).2 ++ (substStr vars p.args).2 ++
   (match p.loop with
    | some l => (substStr vars l).2
    | none => []))

/-- Deep substitution over a direct chain entry. -/
def substDC (vars : Vars) (c : DChain) : DChain × List Warning :=
  (⟨(substStr vars c.ipv).1, (substStr vars c.table).1, (substStr vars c.chain).1⟩,
   (substStr vars c.ipv).2 ++ (substStr vars c.table).2 ++ (substStr vars c.chain).2)

/-- Process one zone field: arrays get loop expansion then substitution,
scalars get substitution, booleans pass through. -/
def procZField (vars : Vars) : ZField → ZField × List Warning
  | ZField.arr l =>
    (ZField.arr (substZElems vars (expandLoopsZ vars l).1).1,
     (expandLoopsZ vars l).2 ++ (substZElems vars (expandLoopsZ vars l).1).2)
  | ZField.sc s => (ZField.sc (substStr vars s).1, (substStr vars s).2)
  | ZField.flag b => (ZField.flag b, [])

/-- Process all fields of one zone, in insertion order. -/
def procZone (vars : Vars) (z : Zone) : Zone × List Warning :=
  (z.map fun kv => (kv.1, (procZField vars kv.2).1),
   (z.map fun kv => (procZField vars kv.2).2).flatten)

/-- Loop expansion followed by deep substitution over `direct.rules`. -/
def substExpandR (vars : Vars) (l : List DRule) : List DRule × List Warning :=
  ((expandLoopsDR vars l).1.map fun r => (substDR vars r).1,
   (expandLoopsDR vars l).2 ++
     ((expandLoopsDR vars l).1.map fun r => (substDR vars r).2).flatten)

/-- Loop expansion followed by deep substitution over `direct.passthroughs`. -/
def substExpandP (vars : Vars) (l : List DPass) : List DPass × List Warning :=
  ((expandLoopsDP vars l).1.map fun p => (substDP vars p).1,
   (expandLoopsDP vars l).2 ++
     ((expandLoopsDP vars l).1.map fun p => (substDP vars p).2).flatten)

/-- Process the direct block: loop expansion + substitution over each array
(chains carry no loop directive in the data model, so loop expansion
leaves them unchanged and only substitution applies). -/
def procDirect (vars : Vars) (d : TDirect) : TDirect × List Warning :=
  let d1 := expandRuleGroups d
  let cres : Option (List DChain) × List Warning :=
    match d1.chains with
    | some l => (some (l.map fun c => (substDC vars c).1),
                 (l.map fun c => (substDC vars c).2).flatten)
    | none => (none, [])
  let rres : Option (List DRule) × List Warning :=
    match d1.rules with
    | some l => (some (substExpandR vars l).1, (substExpandR vars l).2)
    | none => (none, [])
  let pres : Option (List DPass) × List Warning :=
    match d1.passthroughs with
    | some l => (some (substExpandP vars l).1, (substExpandP vars l).2)
    | none => (none, [])
  (⟨cres.1, rres.1, pres.1, d1.rule_groups⟩, cres.2 ++ rres.2 ++ pres.2)

/-- First-occurrence deduplication by a key function (seen-set filter). -/
def dedupKey {α β : Type} [DecidableEq β] (key : α → β) : List β → List α → List α
  | _, [] => []
  | seen, x :: xs =>
    if key x ∈ seen then dedupKey key seen xs
    else x :: dedupKey key (key x :: seen) xs

/-- First-occurrence deduplication of a list by a key. -/
def dedup {α β : Type} [DecidableEq β] (key : α → β) (l : List α) : List α :=
  dedupKey key [] l

/-- `processTemplate` of template-engine.mjs: resolve variables, expand
rule groups, expand loops, substitute scalars, and return the expanded
configuration (variables removed), the resolved variables and the
deduplicated warnings. -/
def processTemplate (config : TConfig) : TConfig × Vars × List Warning :=
  let vars := resolveVariables config.variablesMap
  let zres : List (Str × Zone) × List Warning :=
    (config.zones.map fun nz => (nz.1, (procZone vars nz.2).1),
     (config.zones.map fun nz => (procZone vars nz.2).2).flatten)
  let dres : Option TDirect × List Warning :=
    match config.direct with
    | some d => (some (procDirect vars d).1, (procDirect vars d).2)
    | none => (none, [])
  (⟨[], zres.1, dres.1⟩, vars, dedup id (zres.2 ++ dres.2))

/-! ## Claim C2: loop-key retention in template expansion -/

/-- A loop value in the expanded output is acceptable when it was removed,
was the (falsy) empty string, or is covered by a recorded loop warning. -/
def loopOk (ws : List Warning) (lo : Option Str) : Prop :=
  lo = none ∨ lo = some [] ∨ ∃ w ∈ ws, loopWarn w = true

theorem loopOk_mono {ws ws' : List Warning} {lo : Option Str}
    (hsub : ∀ w ∈ ws, w ∈ ws') (h : loopOk ws lo) : loopOk ws' lo := by
  rcases h with h | h | ⟨w, hw, hlw⟩
  exacts [Or.inl h, Or.inr (Or.inl h), Or.inr (Or.inr ⟨w, hsub w hw, hlw⟩)]

theorem mem_dedupKey_id {α : Type} [DecidableEq α] :
    ∀ (l seen : List α) (a : α), a ∈ dedupKey id seen l ↔ (a ∈ l ∧ a ∉ seen) := by
  intro l
  induction l with
  | nil => intro seen a; simp [dedupKey]
  | cons x xs ih =>
    intro seen a
    simp only [dedupKey, id]
    by_cases hx : x ∈ seen
    · rw [if_pos hx, ih]
      simp only [List.mem_cons]
      constructor
      · rintro ⟨hmem, hns⟩; exact ⟨Or.inr hmem, hns⟩
      · rintro ⟨hor, hns⟩
        rcases hor with rfl | hmem
        · exact absurd hx hns
        · exact ⟨hmem, hns⟩
    · rw [if_neg hx]
      simp only [List.mem_cons, ih]
      constructor
      · rintro (rfl | ⟨hmem, hns⟩)
        · exact ⟨Or.inl rfl, hx⟩
        · exact ⟨Or.inr hmem, fun hc => hns (Or.inr hc)⟩
      · rintro ⟨hor, hns⟩
        rcases hor with rfl | hmem
        · exact Or.inl rfl
        · by_cases hax : a = x
          · exact Or.inl hax
          · exact Or.inr ⟨hmem, by simp [List.mem_cons, hax, hns]⟩

theorem mem_dedup_id {α : Type} [DecidableEq α] {a : α} {l : List α} :
    a ∈ dedup id l ↔ a ∈ l := by
  rw [dedup, mem_dedupKey_id]
  simp

theorem expandZElem_loop (vars : Vars) (e : ZElem) :
    ∀ e' ∈ (expandZElem vars e).1, ∀ it, e' = ZElem.obj it →
      loopOk (expandZElem vars e).2 it.loop := by
  cases e with
  | plain s =>
    intro e' he' it heq
    simp only [expandZElem, List.mem_singleton] at he'
    subst he'
    exact absurd heq (by simp)
  | obj it0 =>
    cases hl : it0.loop with
    | none =>
      intro e' he' it heq
      simp only [expandZElem, hl, List.mem_singleton] at he'
      subst he'
      cases heq
      exact Or.inl hl
    | some l =>
      by_cases hemp : l.isEmpty = true
      · intro e' he' it heq
        simp only [expandZElem, hl, hemp, if_true, List.mem_singleton] at he'
        subst he'
        cases heq
        right; left
        rw [hl, List.isEmpty_iff.mp hemp]
      · cases href : loopRefName l with
        | none =>
          intro e' he' it heq
          simp only [expandZElem, hl, hemp, if_false, href, List.mem_singleton,
            Bool.false_eq_true] at he'
          subst he'
          right; right
          refine ⟨Warning.invalidLoopRef l, ?_, rfl⟩
          simp [expandZElem, hl, hemp, href]
        | some an =>
          cases hlk : lookupVar vars an with
          | none =>
            intro e' he' it heq
            simp only [expandZElem, hl, hemp, if_false, href, hlk,
              List.mem_singleton, Bool.false_eq_true] at he'
            subst he'
            right; right
            refine ⟨Warning.loopNotArray an, ?_, rfl⟩
            simp [expandZElem, hl, hemp, href, hlk]
          | some v =>
            cases v with
            | vstr s' =>
              intro e' he' it heq
              simp only [expandZElem, hl, hemp, if_false, href, hlk,
                List.mem_singleton, Bool.false_eq_true] at he'
              subst he'
              right; right
              refine ⟨Warning.loopNotArray an, ?_, rfl⟩
              simp [expandZElem, hl, hemp, href, hlk]
            | vlist vs =>
              intro e' he' it heq
              simp only [expandZElem, hl, hemp, if_false, href, hlk,
                List.mem_map, Bool.false_eq_true] at he'
              obtain ⟨v, _, rfl⟩ := he'
              cases heq
              exact Or.inl rfl

theorem expandLoopsZ_loop (vars : Vars) (items : List ZElem) :
    ∀ e' ∈ (expandLoopsZ vars items).1, ∀ it, e' = ZElem.obj it →
      loopOk (expandLoopsZ vars items).2 it.loop := by
  intro e' he' it heq
  simp only [expandLoopsZ, List.mem_flatten, List.mem_map] at he'
  obtain ⟨l', ⟨e, he, rfl⟩, he'mem⟩ := he'
  refine loopOk_mono ?_ (expandZElem_loop vars e e' he'mem it heq)
  intro w hw
  simp only [expandLoopsZ, List.mem_flatten, List.mem_map]
  exact ⟨(expandZElem vars e).2, ⟨e, he, rfl⟩, hw⟩

theorem substItem_loop (vars : Vars) (it : Item) :
    ((substItem vars it).1).loop = it.loop.map fun l => (substStr vars l).1 := rfl

theorem loopOk_subst (vars : Vars) {ws : List Warning} {lo : Option Str}
    (h : loopOk ws lo) : loopOk ws (lo.map fun l => (substStr vars l).1) := by
  rcases h with h | h | h
  · left; rw [h]; rfl
  · right; left; rw [h]; rfl
  · right; right; exact h

theorem procZField_loop (vars : Vars) (f : ZField) :
    ∀ l', (procZField vars f).1 = ZField.arr l' →
      ∀ e' ∈ l', ∀ it, e' = ZElem.obj it → loopOk (procZField vars f).2 it.loop := by
  cases f with
  | arr l =>
    intro l' hl' e' he' it heq
    simp only [procZField, ZField.arr.injEq] at hl'
    subst hl'
    simp only [substZElems, List.mem_map] at he'
    obtain ⟨e0, he0, rfl⟩ := he'
    cases e0 with
    | plain s => exact absurd heq (by simp [substZElem])
    | obj it0 =>
      have hit : it = (substItem vars it0).1 := by
        simp only [substZElem, ZElem.obj.injEq] at heq
        exact heq.symm
      subst hit
      rw [substItem_loop]
      refine loopOk_subst vars (loopOk_mono ?_
        (expandLoopsZ_loop vars l (ZElem.obj it0) he0 it0 rfl))
      intro w hw
      simp only [procZField]
      exact List.mem_append_left _ hw
  | sc s => intro l' hl'; exact absurd hl' (by simp [procZField])
  | flag b => intro l' hl'; exact absurd hl' (by simp [procZField])

theorem procZone_loop (vars : Vars) (z : Zone) :
    ∀ q ∈ (procZone vars z).1, ∀ l', q.2 = ZField.arr l' →
      ∀ e' ∈ l', ∀ it, e' = ZElem.obj it → loopOk (procZone vars z).2 it.loop := by
  intro q hq l' hl' e' he' it heq
  simp only [procZone, List.mem_map] at hq
  obtain ⟨kv, hkv, rfl⟩ := hq
  refine loopOk_mono ?_ (procZField_loop vars kv.2 l' hl' e' he' it heq)
  intro w hw
  simp only [procZone, List.mem_flatten, List.mem_map]
  exact ⟨(procZField vars kv.2).2, ⟨kv, hkv, rfl⟩, hw⟩

theorem expandDRElem_loop (vars : Vars) (r : DRule) :
    ∀ r' ∈ (expandDRElem vars r).1, loopOk (expandDRElem vars r).2 r'.loop := by
  cases hl : r.loop with
  | none =>
    intro r' hr'
    simp only [expandDRElem, hl, List.mem_singleton] at hr'
    subst hr'
    exact Or.inl hl
  | some l =>
    by_cases hemp : l.isEmpty = true
    · intro r' hr'
      simp only [expandDRElem, hl, hemp, if_true, List.mem_singleton] at hr'
      subst hr'
      right; left
      rw [hl, List.isEmpty_iff.mp hemp]
    · cases href : loopRefName l with
      | none =>
        intro r' hr'
        simp only [expandDRElem, hl, hemp, if_false, href, List.mem_singleton,
          Bool.false_eq_true] at hr'
        subst hr'
        exact Or.inr (Or.inr ⟨Warning.invalidLoopRef l,
          by simp [expandDRElem, hl, hemp, href], rfl⟩)
      | some an =>
        cases hlk : lookupVar vars an with
        | none =>
          intro r' hr'
          simp only [expandDRElem, hl, hemp, if_false, href, hlk,
            List.mem_singleton, Bool.false_eq_true] at hr'
          subst hr'
          exact Or.inr (Or.inr ⟨Warning.loopNotArray an,
            by simp [expandDRElem, hl, hemp, href, hlk], rfl⟩)
        | some v =>
          cases v with
          | vstr s' =>
            intro r' hr'
            simp only [expandDRElem, hl, hemp, if_false, href, hlk,
              List.mem_singleton, Bool.false_eq_true] at hr'
            subst hr'
            exact Or.inr (Or.inr ⟨Warning.loopNotArray an,
              by simp [expandDRElem, hl, hemp, href, hlk], rfl⟩)
          | vlist vs =>
            intro r' hr'
            simp only [expandDRElem, hl, hemp, if_false, href, hlk,
              List.mem_map, Bool.false_eq_true] at hr'
            obtain ⟨v, _, rfl⟩ := hr'
            exact Or.inl rfl

theorem expandLoopsDR_loop (vars : Vars) (items : List DRule) :
    ∀ r' ∈ (expandLoopsDR vars items).1, loopOk (expandLoopsDR vars items).2 r'.loop := by
  intro r' hr'
  simp only [expandLoopsDR, List.mem_flatten, List.mem_map] at hr'
  obtain ⟨l', ⟨r, hr, rfl⟩, hr'mem⟩ := hr'
  refine loopOk_mono ?_ (expandDRElem_loop vars r r' hr'mem)
  intro w hw
  simp only [expandLoopsDR, List.mem_flatten, List.mem_map]
  exact ⟨(expandDRElem vars r).2, ⟨r, hr, rfl⟩, hw⟩

theorem substDR_loop (vars : Vars) (r : DRule) :
    ((substDR vars r).1).loop = r.loop.map fun l => (substStr vars l).1 := rfl

theorem substExpandR_loop (vars : Vars) (l : List DRule) :
    ∀ r' ∈ (substExpandR vars l).1, loopOk (substExpandR vars l).2 r'.loop := by
  intro r' hr'
  simp only [substExpandR, List.mem_map] at hr'
  obtain ⟨r0, hr0, rfl⟩ := hr'
  rw [substDR_loop]
  refine loopOk_subst vars (loopOk_mono ?_ (expandLoopsDR_loop vars l r0 hr0))
  intro w hw
  simp only [substExpandR]
  exact List.mem_append_left _ hw

theorem expandDPElem_loop (vars : Vars) (p : DPass) :
    ∀ p' ∈ (expandDPElem vars p).1, loopOk (expandDPElem vars p).2 p'.loop := by
  cases hl : p.loop with
  | none =>
    intro p' hp'
    simp only [expandDPElem, hl, List.mem_singleton] at hp'
    subst hp'
    exact Or.inl hl
  | some l =>
    by_cases hemp : l.isEmpty = true
    · intro p' hp'
      simp only [expandDPElem, hl, hemp, if_true, List.mem_singleton] at hp'
      subst hp'
      right; left
      rw [hl, List.isEmpty_iff.mp hemp]
    · cases href : loopRefName l with
      | none =>
        intro p' hp'
        simp only [expandDPElem, hl, hemp, if_false, href, List.mem_singleton,
          Bool.false_eq_true] at hp'
        subst hp'
        exact Or.inr (Or.inr ⟨Warning.invalidLoopRef l,
          by simp [expandDPElem, hl, hemp, href], rfl⟩)
      | some an =>
        cases hlk : lookupVar vars an with
        | none =>
          intro p' hp'
          simp only [expandDPElem, hl, hemp, if_false, href, hlk,
            List.mem_singleton, Bool.false_eq_true] at hp'
          subst hp'
          exact Or.inr (Or.inr ⟨Warning.loopNotArray an,
            by simp [expandDPElem, hl, hemp, href, hlk], rfl⟩)
        | some v =>
          cases v with
          | vstr s' =>
            intro p' hp'
            simp only [expandDPElem, hl, hemp, if_false, href, hlk,
              List.mem_singleton, Bool.false_eq_true] at hp'
            subst hp'
            exact Or.inr (Or.inr ⟨Warning.loopNotArray an,
              by simp [expandDPElem, hl, hemp, href, hlk], rfl⟩)
          | vlist vs =>
            intro p' hp'
            simp only [expandDPElem, hl, hemp, if_false, href, hlk,
              List.mem_map, Bool.false_eq_true] at hp'
            obtain ⟨v, _, rfl⟩ := hp'
            exact Or.inl rfl

theorem expandLoopsDP_loop (vars : Vars) (items : List DPass) :
    ∀ p' ∈ (expandLoopsDP vars items).1, loopOk (expandLoopsDP vars items).2 p'.loop := by
  intro p' hp'
  simp only [expandLoopsDP, List.mem_flatten, List.mem_map] at hp'
  obtain ⟨l', ⟨p, hp, rfl⟩, hp'mem⟩ := hp'
  refine loopOk_mono ?_ (expandDPElem_loop vars p p' hp'mem)
  intro w hw
  simp only [expandLoopsDP, List.mem_flatten, List.mem_map]
  exact ⟨(expandDPElem vars p).2, ⟨p, hp, rfl⟩, hw⟩

theorem substDP_loop (vars : Vars) (p : DPass) :
    ((substDP vars p).1).loop = p.loop.map fun l => (substStr vars l).1 := rfl

theorem substExpandP_loop (vars : Vars) (l : List DPass) :
    ∀ p' ∈ (substExpandP vars l).1, loopOk (substExpandP vars l).2 p'.loop := by
  intro p' hp'
  simp only [substExpandP, List.mem_map] at hp'
  obtain ⟨p0, hp0, rfl⟩ := hp'
  rw [substDP_loop]
  refine loopOk_subst vars (loopOk_mono ?_ (expandLoopsDP_loop vars l p0 hp0))
  intro w hw
  simp only [substExpandP]
  exact List.mem_append_left _ hw

theorem procDirect_loop (vars : Vars) (d : TDirect) :
    (∀ r ∈ ((procDirect vars d).1).rules.getD [], loopOk (procDirect vars d).2 r.loop) ∧
    (∀ p ∈ ((procDirect vars d).1).passthroughs.getD [],
      loopOk (procDirect vars d).2 p.loop) := by
  constructor
  · intro r hr
    cases hrul : (expandRuleGroups d).rules with
    | none => simp [procDirect, hrul] at hr
    | some l =>
      simp only [procDirect, hrul] at hr
      refine loopOk_mono ?_ (substExpandR_loop vars l r hr)
      intro w hw
      simp only [procDirect, hrul]
      exact List.mem_append_left _ (List.mem_append_right _ hw)
  · intro p hp
    cases hpt : (expandRuleGroups d).passthroughs with
    | none => simp [procDirect, hpt] at hp
    | some l =>
      simp only [procDirect, hpt] at hp
      refine loopOk_mono ?_ (substExpandP_loop vars l p hp)
      intro w hw
      simp only [procDirect, hpt]
      exact List.mem_append_right _ hw

/-- C2 amended: after template expansion, an element of a zone array field
or of `direct.rules`/`direct.passthroughs` retains a `loop` key only if
its loop value was the empty string or a loop warning (invalid reference
or non-list variable) was recorded; every successfully expanded loop
directive is removed. -/
theorem processTemplate_loop_keys (config : TConfig) :
    (∀ p ∈ (processTemplate config).1.zones, ∀ q ∈ p.2, ∀ l, q.2 = ZField.arr l →
      ∀ e ∈ l, ∀ it, e = ZElem.obj it →
        loopOk (processTemplate config).2.2 it.loop) ∧
    (∀ d, (processTemplate config).1.direct = some d →
      (∀ r ∈ d.rules.getD [], loopOk (processTemplate config).2.2 r.loop) ∧
      (∀ p ∈ d.passthroughs.getD [], loopOk (processTemplate config).2.2 p.loop)) := by
  constructor
  · intro p hp q hq l hl e he it heq
    simp only [processTemplate, List.mem_map] at hp
    obtain ⟨nz, hnz, rfl⟩ := hp
    refine loopOk_mono ?_ (procZone_loop (resolveVariables config.variablesMap)
      nz.2 q hq l hl e he it heq)
    intro w hw
    simp only [processTemplate]
    rw [mem_dedup_id]
    apply List.mem_append_left
    simp only [List.mem_flatten, List.mem_map]
    exact ⟨(procZone (resolveVariables config.variablesMap) nz.2).2, ⟨nz, hnz, rfl⟩, hw⟩
  · intro d hd
    cases hdir : config.direct with
    | none => simp [processTemplate, hdir] at hd
    | some d0 =>
      simp only [processTemplate, hdir, Option.some.injEq] at hd
      subst hd
      have hmono : ∀ w ∈ (procDirect (resolveVariables config.variablesMap) d0).2,
          w ∈ (processTemplate config).2.2 := by
        intro w hw
        simp only [processTemplate, hdir]
        rw [mem_dedup_id]
        exact List.mem_append_right _ hw
      exact ⟨fun r hr => loopOk_mono hmono
          ((procDirect_loop (resolveVariables config.variablesMap) d0).1 r hr),
        fun p hp => loopOk_mono hmono
          ((procDirect_loop (resolveVariables config.variablesMap) d0).2 p hp)⟩

/-- The array item used in the C2 counterexample: a port object whose
loop directive references an absent variable. -/
def c2Item : Item := ⟨[(S "port", FVal.fs (S "80"))], some (S "\x7b\x7b missing \x7d\x7d")⟩

/-- The configuration used in the C2 counterexample. -/
def c2Config : TConfig :=
  ⟨[], [(S "public", [(S "ports", ZField.arr [ZElem.obj c2Item])])], none⟩

/-- C2 counterexample: the expanded output of `processTemplate` on
`c2Config` still carries the `loop` key on the ports element (the loop
referenced an absent variable, so the element is kept unexpanded),
refuting the claim that no element of the expanded output ever retains a
`loop` key. -/
theorem processTemplate_retains_loop :
    (processTemplate c2Config).1.zones
      = [(S "public", [(S "ports", ZField.arr [ZElem.obj c2Item])])] ∧
    c2Item.loop = some (S "\x7b\x7b missing \x7d\x7d") := by
  exact ⟨rfl, rfl⟩

/-- Witness for C2 amended at the counterexample configuration: the
retained loop key is covered by the recorded loop warning. -/
theorem processTemplate_loop_keys_witness :
    (S "public", [(S "ports", ZField.arr [ZElem.obj c2Item])])
        ∈ (processTemplate c2Config).1.zones ∧
    loopOk (processTemplate c2Config).2.2 c2Item.loop :=
  ⟨by decide,
   (processTemplate_loop_keys c2Config).1
     (S "public", [(S "ports", ZField.arr [ZElem.obj c2Item])]) (by decide)
     (S "ports", ZField.arr [ZElem.obj c2Item]) (by decide)
     [ZElem.obj c2Item] rfl (ZElem.obj c2Item) (by decide) c2Item rfl⟩

/-! ## Claims C4, C10: rule-group expansion -/

/-- Shared helper: replacing the wildcard token with a literal makes the
literal appear whenever the token occurs in the argument string. -/
theorem replaceIpvAny_hits (lit x y : Str) :
    containsSeg lit (replaceIpvAny lit (x ++ (S "\x7b\x7b ipv_any \x7d\x7d" ++ y))) := by
  have htok : S "\x7b\x7b ipv_any \x7d\x7d" = tokStr (S " ") (S "ipv_any") (S " ") := by decide
  rw [replaceIpvAny, htok]
  exact replNamedAux_hits (S "ipv_any") lit (by decide) (by decide) (by decide)
    (by decide) _ x y (le_refl _)

/-- C4: a direct block holding one rule group with `ipv: [ipv4, ipv6]` and
one rule whose args contains the wildcard-address token expands into
exactly two direct rules — the ipv4 one with `0.0.0.0/0` in its args and
the ipv6 one with `::/0` — plus one chain entry per family inheriting the
group's table and chain, and the `rule_groups` key is gone. -/
theorem expandRuleGroups_dual_family (table chain : Str) (priority : Int) (x y : Str) :
    expandRuleGroups
      ⟨none, none, none,
       some [⟨IpvSpec.many [S "ipv4", S "ipv6"], table, chain,
              some [⟨priority, x ++ (S "\x7b\x7b ipv_any \x7d\x7d" ++ y), none⟩], none⟩]⟩
      = ⟨some [⟨S "ipv4", table, chain⟩, ⟨S "ipv6", table, chain⟩],
         some [⟨S "ipv4", table, chain, priority,
                replaceIpvAny (S "0.0.0.0/0") (x ++ (S "\x7b\x7b ipv_any \x7d\x7d" ++ y)), none⟩,
               ⟨S "ipv6", table, chain, priority,
                replaceIpvAny (S "::/0") (x ++ (S "\x7b\x7b ipv_any \x7d\x7d" ++ y)), none⟩],
         some [], none⟩ ∧
    containsSeg (S "0.0.0.0/0")
      (replaceIpvAny (S "0.0.0.0/0") (x ++ (S "\x7b\x7b ipv_any \x7d\x7d" ++ y))) ∧
    containsSeg (S "::/0")
      (replaceIpvAny (S "::/0") (x ++ (S "\x7b\x7b ipv_any \x7d\x7d" ++ y))) := by
  refine ⟨rfl, replaceIpvAny_hits _ x y, replaceIpvAny_hits _ x y⟩

/-- C10: a rule group whose `ipv` is neither `ipv4` nor `ipv6` silently
falls back to the ipv4 any-address literal: the wildcard token in every
rule and passthrough of the group is replaced by `0.0.0.0/0`. -/
theorem expandRuleGroups_unknown_family (ipv table chain : Str)
    (rules : List GRule) (passes : List GPass)
    (h4 : ipv ≠ S "ipv4") (h6 : ipv ≠ S "ipv6") :
    expandRuleGroups
      ⟨none, none, none, some [⟨IpvSpec.one ipv, table, chain, some rules, some passes⟩]⟩
      = ⟨some [⟨ipv, table, chain⟩],
         some (rules.map fun r => ⟨ipv, table, chain, r.priority,
           replaceIpvAny (S "0.0.0.0/0") r.args, truthyLoop r.loop⟩),
         some (passes.map fun p => ⟨ipv, replaceIpvAny (S "0.0.0.0/0") p.args,
           truthyLoop p.loop⟩),
         none⟩ ∧
    ∀ r ∈ rules, ∀ x y, r.args = x ++ (S "\x7b\x7b ipv_any \x7d\x7d" ++ y) →
      containsSeg (S "0.0.0.0/0") (replaceIpvAny (S "0.0.0.0/0") r.args) := by
  constructor
  · have hany : ipvAnyOf ipv = S "0.0.0.0/0" := by
      rw [ipvAnyOf, if_neg h4, if_neg h6]
    simp [expandRuleGroups, ipvListOf, hany]
  · intro r _ x y hdec
    rw [hdec]
    exact replaceIpvAny_hits _ x y

/-- Witness for C10 at a concrete unrecognized family `ipv5`. -/
theorem expandRuleGroups_unknown_family_witness :
    S "ipv5" ≠ S "ipv4" ∧ S "ipv5" ≠ S "ipv6" ∧
    (expandRuleGroups
      ⟨none, none, none, some [⟨IpvSpec.one (S "ipv5"), S "filter", S "X",
        some [⟨1, S "-s \x7b\x7b ipv_any \x7d\x7d -j DROP", none⟩],
        some [⟨S "-A X -d \x7b\x7b ipv_any \x7d\x7d", none⟩]⟩]⟩
      = ⟨some [⟨S "ipv5", S "filter", S "X"⟩],
         some [⟨S "ipv5", S "filter", S "X", 1,
           replaceIpvAny (S "0.0.0.0/0") (S "-s \x7b\x7b ipv_any \x7d\x7d -j DROP"), none⟩],
         some [⟨S "ipv5",
           replaceIpvAny (S "0.0.0.0/0") (S "-A X -d \x7b\x7b ipv_any \x7d\x7d"), none⟩],
         none⟩ ∧
      ∀ r ∈ [(⟨1, S "-s \x7b\x7b ipv_any \x7d\x7d -j DROP", none⟩ : GRule)],
        ∀ x y, r.args = x ++ (S "\x7b\x7b ipv_any \x7d\x7d" ++ y) →
        containsSeg (S "0.0.0.0/0") (replaceIpvAny (S "0.0.0.0/0") r.args)) :=
  ⟨by decide, by decide,
   expandRuleGroups_unknown_family (S "ipv5") (S "filter") (S "X")
     [⟨1, S "-s \x7b\x7b ipv_any \x7d\x7d -j DROP", none⟩]
     [⟨S "-A X -d \x7b\x7b ipv_any \x7d\x7d", none⟩] (by decide) (by decide)⟩

/-! ## Claim C9: missing-variable handling in the final substitution pass -/

/-- The scanner never records a warning for the reserved name `item`. -/
theorem substAux_item_not_mem (vars : Vars) :
    ∀ fuel s, S "item" ∉ (substAux vars fuel s).2 := by
  intro fuel
  induction fuel with
  | zero => intro s; simp [substAux]
  | succ fuel ih =>
    intro s
    cases s with
    | nil => simp [substAux]
    | cons c cs =>
      rw [substAux_cons]
      cases hm : matchVar (c :: cs) with
      | none => simp only [hm]; exact ih cs
      | some nk =>
        obtain ⟨m, k⟩ := nk
        simp only [hm]
        by_cases hitem : m = S "item"
        · rw [if_pos hitem]; exact ih _
        · rw [if_neg hitem]
          cases hlk : lookupVar vars m with
          | none =>
            simp only
            intro hmem
            rcases List.mem_cons.mp hmem with heq | hmem2
            · exact hitem heq.symm
            · exact ih _ hmem2
          | some v =>
            cases v with
            | vstr s' => simp only; exact ih _
            | vlist l' => simp only; exact ih _

/-- C9 counterexample: a `\x7b\x7b item \x7d\x7d` reference whose name `item` is
absent from the (empty) resolved variable map is left unexpanded but no
warning is recorded — refuting the claim that a warning is recorded for
every unresolved reference to an absent name. -/
theorem processTemplate_item_no_warning :
    lookupVar (resolveVariables []) (S "item") = none ∧
    processTemplate ⟨[], [(S "public", [(S "target", ZField.sc (S "\x7b\x7b item \x7d\x7d"))])], none⟩
      = (⟨[], [(S "public", [(S "target", ZField.sc (S "\x7b\x7b item \x7d\x7d"))])], none⟩,
         [], []) := by
  constructor
  · rfl
  · rfl

/-- C9 amended: in the final substitution pass, every reference to a name
absent from the resolved variable map is left unexpanded in the output
string; when the name is not the loop-local `item`, a warning naming it
is recorded; `item` references are preserved untouched and never warned. -/
theorem substituteScalars_missing (vars : Vars) (x y w1 n w2 : Str)
    (h1 : ∀ c ∈ w1, isWsC c = true) (h2 : ∀ c ∈ w2, isWsC c = true)
    (hn : ∀ c ∈ n, isWordC c = true) (hne : n ≠ [])
    (hmiss : lookupVar vars n = none) :
    containsSeg (tokStr w1 n w2)
      (substituteScalars vars (x ++ (tokStr w1 n w2 ++ y))).1 ∧
    (n ≠ S "item" → n ∈ (substituteScalars vars (x ++ (tokStr w1 n w2 ++ y))).2) ∧
    S "item" ∉ (substituteScalars vars (x ++ (tokStr w1 n w2 ++ y))).2 := by
  have main := substAux_tok_preserved vars h1 h2 hn hne hmiss
    (x ++ (tokStr w1 n w2 ++ y)).length x y (le_refl _)
  exact ⟨main.1, main.2, substAux_item_not_mem vars _ _⟩

/-- Witness for C9 amended: the reference `\x7b\x7b port \x7d\x7d` inside a longer
string, with an empty variable map. -/
theorem substituteScalars_missing_witness :
    (∀ c ∈ S " ", isWsC c = true) ∧ (∀ c ∈ S "port", isWordC c = true) ∧
    S "port" ≠ [] ∧ lookupVar [] (S "port") = none ∧
    (containsSeg (tokStr (S " ") (S "port") (S " "))
      (substituteScalars [] (S "x=" ++ (tokStr (S " ") (S "port") (S " ") ++ S "/tcp"))).1 ∧
    (S "port" ≠ S "item" →
      S "port" ∈ (substituteScalars []
        (S "x=" ++ (tokStr (S " ") (S "port") (S " ") ++ S "/tcp"))).2) ∧
    S "item" ∉ (substituteScalars []
      (S "x=" ++ (tokStr (S " ") (S "port") (S " ") ++ S "/tcp"))).2) :=
  ⟨by decide, by decide, by decide, by decide,
   substituteScalars_missing [] (S "x=") (S "/tcp") (S " ") (S "port") (S " ")
     (by decide) (by decide) (by decide) (by decide) (by decide)⟩

/-! ## Command generator (generator.mjs) -/

/-- A log sub-object of a rich rule (`prefix` renamed `logPrefix`). -/
structure LogSpec where
  logPrefix : Option Str := none
  level : Option Str := none
  limit : Option Str := none
deriving DecidableEq

/-- A rich-rule forward-port sub-object (fields optional: the reverse
parser builds them incrementally). -/
structure RRFwd where
  port : Option Str := none
  protocol : Option Str := none
  to_port : Option Str := none
  to_addr : Option Str := none
deriving DecidableEq

/-- A rich-rule source-port sub-object. -/
structure RRPort where
  port : Option Str := none
  protocol : Option Str := none
deriving DecidableEq

/-- A rich rule, §3 of the specification. -/
structure RichRule where
  family : Option Str := none
  source : Option Str := none
  source_invert : Bool := false
  destination : Option Str := none
  destination_invert : Bool := false
  service : Option Str := none
  port : Option Str := none
  protocol : Option Str := none
  icmp_block : Option Str := none
  icmp_type : Option Str := none
  masquerade : Bool := false
  forward_port : Option RRFwd := none
  source_port : Option RRPort := none
  log : Option LogSpec := none
  audit : Bool := false
  action : Option Str := none
  reject_type : Option Str := none
  mark_set : Option Str := none
deriving DecidableEq

/-- JS truthiness of an optional string (absent or empty is falsy). -/
def tS : Option Str → Bool
  | some s => !s.isEmpty
  | none => false

/-- JS template interpolation of a possibly-undefined string. -/
def ren (o : Option Str) : Str := o.getD (S "undefined")

/-- Lower-case a string (`String(rule.action).toLowerCase()`). -/
def lowerS (s : Str) : Str := s.map Char.toLower

/-- `parts.join(" ")`. -/
def joinSp (parts : List Str) : Str := (parts.intersperse (S " ")).flatten

/-- `buildRichRule` of generator.mjs: render a rich rule in the fixed
field order, the action last. -/
def buildRichRule (rule : RichRule) : Str :=
  let parts : List Str := [S "rule"]
  let parts := parts ++
    (if tS rule.family then [S "family=\"" ++ rule.family.getD [] ++ S "\""] else [])
  let parts := parts ++
    (if tS rule.source then
      [S "source address=\"" ++ rule.source.getD [] ++ S "\"" ++
        (if rule.source_invert then S " invert=\"true\"" else [])]
    else [])
  let parts := parts ++
    (if tS rule.destination then
      [S "destination address=\"" ++ rule.destination.getD [] ++ S "\"" ++
        (if rule.destination_invert then S " invert=\"true\"" else [])]
    else [])
  let parts := parts ++
    (if tS rule.service then [S "service name=\"" ++ rule.service.getD [] ++ S "\""] else [])
  let parts := parts ++
    (if tS rule.port && tS rule.protocol then
      [S "port port=\"" ++ rule.port.getD [] ++ S "\" protocol=\"" ++
        rule.protocol.getD [] ++ S "\""]
    else [])
  let parts := parts ++
    (if tS rule.protocol && !tS rule.port then
      [S "protocol value=\"" ++ rule.protocol.getD [] ++ S "\""]
    else [])
  let parts := parts ++
    (if tS rule.icmp_block then
      [S "icmp-block name=\"" ++ rule.icmp_block.getD [] ++ S "\""]
    else [])
  let parts := parts ++
    (if tS rule.icmp_type then
      [S "icmp-type name=\"" ++ rule.icmp_type.getD [] ++ S "\""]
    else [])
  let parts := parts ++ (if rule.masquerade then [S "masquerade"] else [])
  let parts := parts ++
    (match rule.forward_port with
     | some fp =>
       [S "forward-port port=\"" ++ ren fp.port ++ S "\" protocol=\"" ++
         ren fp.protocol ++ S "\"" ++
         (if tS fp.to_port then S " to-port=\"" ++ fp.to_port.getD [] ++ S "\"" else []) ++
         (if tS fp.to_addr then S " to-addr=\"" ++ fp.to_addr.getD [] ++ S "\"" else [])]
     | none => [])
  let parts := parts ++
    (match rule.source_port with
     | some sp =>
       [S "source-port port=\"" ++ ren sp.port ++ S "\" protocol=\"" ++
         ren sp.protocol ++ S "\""]
     | none => [])
  let parts := parts ++
    (match rule.log with
     | some lg =>
       [S "log" ++
         (if tS lg.logPrefix then S " prefix=\"" ++ lg.logPrefix.getD [] ++ S "\"" else []) ++
         (if tS lg.level then S " level=\"" ++ lg.level.getD [] ++ S "\"" else []) ++
         (if tS lg.limit then S " limit value=\"" ++ lg.limit.getD [] ++ S "\"" else [])]
     | none => [])
  let parts := parts ++ (if rule.audit then [S "audit"] else [])
  let parts := parts ++
    (if tS rule.action then
      (let action := lowerS (rule.action.getD [])
       if action = S "reject" && tS rule.reject_type then
         [S "reject type=\"" ++ rule.reject_type.getD [] ++ S "\""]
       else if action = S "mark" && tS rule.mark_set then
         [S "mark set=\"" ++ rule.mark_set.getD [] ++ S "\""]
       else [action])
    else [])
  joinSp parts

/-- Lookup of a named field in an array-item object. -/
def itemGet (it : Item) (k : Str) : Option FVal :=
  (it.fields.find? fun kv => kv.1 = k).map fun kv => kv.2

/-- JS template interpolation of a field value. -/
def fvShow : FVal → Str
  | FVal.fs s => s
  | FVal.fi n => S (toString n)
  | FVal.fb b => if b then S "true" else S "false"

/-- `typeof e === "object" ? e.value : e` for zone list entries. -/
def zElemVal (e : ZElem) : Str :=
  match e with
  | ZElem.plain s => s
  | ZElem.obj it =>
    match itemGet it (S "value") with
    | some v => fvShow v
    | none => S "undefined"

/-- A zone port entry: bare scalar or `\x7bport, protocol\x7d` object. -/
inductive PortE where
  | pstr (s : Str)
  | pobj (port : Str) (protocol : Option Str)
deriving DecidableEq

/-- A forward-port entry. -/
structure FPE where
  port : Str
  protocol : Option Str := none
  to_port : Option Str := none
  to_addr : Option Str := none
deriving DecidableEq

/-- A zone as consumed by the command generator (expanded config). -/
structure GZone where
  target : Option Str := none
  interfaces : Option (List ZElem) := none
  sources : Option (List ZElem) := none
  services : Option (List ZElem) := none
  ports : Option (List PortE) := none
  protocols : Option (List ZElem) := none
  source_ports : Option (List PortE) := none
  rich_rules : Option (List RichRule) := none
  forward : Option Bool := none
  masquerade : Option Bool := none
  forward_ports : Option (List FPE) := none
  icmp_blocks : Option (List ZElem) := none
  icmp_block_inversion : Option Bool := none
deriving DecidableEq

/-- The direct block as consumed by the generator. -/
structure GDirect where
  chains : Option (List DChain) := none
  rules : Option (List DRule) := none
  passthroughs : Option (List DPass) := none
deriving DecidableEq

/-- An expanded configuration as consumed by the generator. -/
structure GConfig where
  zones : Option (List (Str × GZone)) := none
  direct : Option GDirect := none
deriving DecidableEq

/-- Replace the first occurrence of `pat` in a string (JS `String.replace`
with a string pattern). -/
def replaceFirstAux (pat rep : Str) : Nat → Str → Str
  | 0, s => s
  | _ + 1, [] => []
  | fuel + 1, c :: cs =>
    if pat.isPrefixOf (c :: cs) then rep ++ (c :: cs).drop pat.length
    else c :: replaceFirstAux pat rep fuel cs

/-- Replace the first occurrence of `pat` by `rep` in `s`. -/
def replaceFirst (pat rep s : Str) : Str := replaceFirstAux pat rep s.length s

/-- `emitCommand` of generator.mjs, as the list of lines it pushes: the
permanent command, plus a runtime duplicate with ` --permanent` removed
unless the command is permanent-only. -/
def emit1 (cmd : Str) (runtime permanentOnly : Bool) : List Str :=
  if runtime && !permanentOnly then [cmd, replaceFirst (S " --permanent") [] cmd]
  else [cmd]

/-- Emit one command line per element of a list. -/
def segList {α : Type} (runtime : Bool) (mk : α → Str) (l : List α) : List Str :=
  (l.map fun x => emit1 (mk x) runtime false).flatten

/-- `p.protocol || "tcp"`. -/
def protoD : Option Str → Str
  | some p => if p.isEmpty then S "tcp" else p
  | none => S "tcp"

/-- `generateZoneCommandsDual` of generator.mjs: per-zone command lines in
the fixed field order.  The target command is emitted only for the add
direction (permanent-only); icmp-block-inversion uses dedicated
`--add-`/`--remove-` forms. -/
def generateZoneCommandsDual (zoneName : Str) (zone : GZone) (op : Str)
    (runtime : Bool) : List Str :=
  let flag := S "--" ++ op
  let pre := S "firewall-cmd --permanent --zone=" ++ zoneName ++ S " "
  (match zone.target with
   | some t =>
     if op = S "add" then emit1 (pre ++ (S "--set-target=" ++ t)) runtime true else []
   | none => []) ++
  segList runtime (fun e => pre ++ (flag ++ S "-interface=" ++ zElemVal e))
    (zone.interfaces.getD []) ++
  segList runtime (fun e => pre ++ (flag ++ S "-source=" ++ zElemVal e))
    (zone.sources.getD []) ++
  segList runtime (fun e => pre ++ (flag ++ S "-service=" ++ zElemVal e))
    (zone.services.getD []) ++
  segList runtime (fun p => match p with
    | PortE.pobj port proto => pre ++ (flag ++ S "-port=" ++ port ++ S "/" ++ protoD proto)
    | PortE.pstr s => pre ++ (flag ++ S "-port=" ++ s)) (zone.ports.getD []) ++
  segList runtime (fun e => pre ++ (flag ++ S "-protocol=" ++ zElemVal e))
    (zone.protocols.getD []) ++
  segList runtime (fun p => match p with
    | PortE.pobj port proto =>
      pre ++ (flag ++ S "-source-port=" ++ port ++ S "/" ++ protoD proto)
    | PortE.pstr s => pre ++ (flag ++ S "-source-port=" ++ s)) (zone.source_ports.getD []) ++
  segList runtime (fun r => pre ++ (flag ++ S "-rich-rule='" ++ buildRichRule r ++ S "'"))
    (zone.rich_rules.getD []) ++
  (if zone.forward = some true then emit1 (pre ++ (flag ++ S "-forward")) runtime false
   else []) ++
  (if zone.masquerade = some true then emit1 (pre ++ (flag ++ S "-masquerade")) runtime false
   else []) ++
  segList runtime (fun fp =>
    pre ++ (flag ++ S "-forward-port=" ++
      (S "port=" ++ fp.port ++ S ":proto=" ++ protoD fp.protocol ++
       (if tS fp.to_port then S ":toport=" ++ fp.to_port.getD [] else []) ++
       (if tS fp.to_addr then S ":toaddr=" ++ fp.to_addr.getD [] else []))))
    (zone.forward_ports.getD []) ++
  segList runtime (fun e => pre ++ (flag ++ S "-icmp-block=" ++ zElemVal e))
    (zone.icmp_blocks.getD []) ++
  (if op = S "add" ∧ zone.icmp_block_inversion = some true then
    emit1 (pre ++ S "--add-icmp-block-inversion") runtime false
   else if op = S "remove" ∧ zone.icmp_block_inversion = some true then
    emit1 (pre ++ S "--remove-icmp-block-inversion") runtime false
   else [])

/-- `generateDirectCommandsDual` of generator.mjs. -/
def generateDirectCommandsDual (direct : GDirect) (op : Str) (runtime : Bool) : List Str :=
  segList runtime (fun c : DChain =>
    S "firewall-cmd --permanent --direct --" ++ op ++ S "-chain " ++
      c.ipv ++ S " " ++ c.table ++ S " " ++ c.chain)
    (dedup (fun c : DChain => c.ipv ++ S " " ++ c.table ++ S " " ++ c.chain)
      (direct.chains.getD [])) ++
  segList runtime (fun r : DRule =>
    S "firewall-cmd --permanent --direct --" ++ op ++ S "-rule " ++
      r.ipv ++ S " " ++ r.table ++ S " " ++ r.chain ++ S " " ++
      S (toString r.priority) ++ S " " ++ r.args)
    (direct.rules.getD []) ++
  segList runtime (fun p : DPass =>
    S "firewall-cmd --permanent --direct --" ++ op ++ S "-passthrough " ++
      p.ipv ++ S " " ++ p.args)
    (direct.passthroughs.getD [])

/-- `generateApply` of generator.mjs. -/
def generateApply (config : Option GConfig) (runtime : Bool) : List Str :=
  match config with
  | none => []
  | some cfg =>
    [S "#!/bin/bash", S "# Generated by Firegen",
     S "# Apply script: adds all configured rules", S ""] ++
    (match cfg.zones with
     | some zs => (zs.map fun nz =>
         [S "# Zone: " ++ nz.1] ++
           generateZoneCommandsDual nz.1 nz.2 (S "add") runtime ++ [S ""]).flatten
     | none => []) ++
    (match cfg.direct with
     | some d => [S "# Direct rules"] ++ generateDirectCommandsDual d (S "add") runtime ++ [S ""]
     | none => []) ++
    (if runtime then [] else [S "# Reload firewalld", S "firewall-cmd --reload"])

/-- `generateRemove` of generator.mjs: direct removals first, then zones,
then the reload line. -/
def generateRemove (config : Option GConfig) (runtime : Bool) : List Str :=
  match config with
  | none => []
  | some cfg =>
    [S "#!/bin/bash", S "# Generated by Firegen",
     S "# Remove script: removes all configured rules", S ""] ++
    (match cfg.direct with
     | some d =>
       [S "# Remove direct rules"] ++ generateDirectCommandsDual d (S "remove") runtime ++ [S ""]
     | none => []) ++
    (match cfg.zones with
     | some zs => (zs.map fun nz =>
         [S "# Zone: " ++ nz.1] ++
           generateZoneCommandsDual nz.1 nz.2 (S "remove") runtime ++ [S ""]).flatten
     | none => []) ++
    (if runtime then [] else [S "# Reload firewalld", S "firewall-cmd --reload"])

/-! ## Claim C3: target handling in the remove direction -/

/-- Zone used in the C3 counterexample: only a target override. -/
def c3Zone : GZone := { target := some (S "DROP") }

/-- Configuration used in the C3 counterexample. -/
def c3Config : GConfig := { zones := some [(S "public", c3Zone)] }

/-- C3 counterexample: for a configuration whose only zone carries a
`target`, the remove script contains no command mentioning the target at
all — refuting the claim that the remove direction emits a dedicated
remove-form command for the target. -/
theorem generateRemove_no_target_cmd :
    c3Zone.target = some (S "DROP") ∧
    generateRemove (some c3Config) false
      = [S "#!/bin/bash", S "# Generated by Firegen",
         S "# Remove script: removes all configured rules", S "",
         S "# Zone: public", S "",
         S "# Reload firewalld", S "firewall-cmd --reload"] ∧
    ¬ ∃ line ∈ generateRemove (some c3Config) false, containsSeg (S "target") line := by
  refine ⟨rfl, rfl, ?_⟩
  decide

/-- C3 amended: the remove direction emits no command for a zone's
`target` (its output is independent of the target field); the set-target
command is emitted only in the add direction, permanent-only and first;
`icmp_block_inversion` does use the dedicated `--remove-` form on
remove. -/
theorem generateZone_remove_ignores_target (zoneName : Str) (zone : GZone)
    (runtime : Bool) :
    generateZoneCommandsDual zoneName zone (S "remove") runtime
      = generateZoneCommandsDual zoneName { zone with target := none } (S "remove") runtime ∧
    (∀ t, zone.target = some t →
      ∃ rest, generateZoneCommandsDual zoneName zone (S "add") runtime
        = (S "firewall-cmd --permanent --zone=" ++ zoneName ++ S " " ++
           (S "--set-target=" ++ t)) :: rest) ∧
    (zone.icmp_block_inversion = some true →
      (S "firewall-cmd --permanent --zone=" ++ zoneName ++ S " " ++
        S "--remove-icmp-block-inversion")
        ∈ generateZoneCommandsDual zoneName zone (S "remove") runtime) := by
  have hne : ¬ (S "remove" = S "add") := by decide
  have hperm : ∀ cmd r, emit1 cmd r true = [cmd] := by
    intro cmd r
    simp [emit1]
  refine ⟨?_, ?_, ?_⟩
  · cases ht : zone.target with
    | none =>
      have hz : ({ zone with target := none } : GZone) = zone := by
        cases zone
        simp_all
      rw [hz]
    | some t =>
      simp only [generateZoneCommandsDual, ht]
      rw [if_neg hne]
  · intro t ht
    simp only [generateZoneCommandsDual, ht]
    rw [if_pos trivial, hperm]
    exact ⟨_, rfl⟩
  · intro hicmp
    have hmem : ∀ cmd, cmd ∈ emit1 cmd runtime false := by
      intro cmd
      cases runtime <;> simp [emit1]
    simp only [generateZoneCommandsDual]
    apply List.mem_append_right
    rw [if_neg ?hneg, if_pos ?hpos]
    case hneg =>
      rintro ⟨h, _⟩
      exact hne h
    case hpos => exact ⟨trivial, hicmp⟩
    exact hmem _

/-- Zone used in the C3 amended witness. -/
def c3bZone : GZone := { target := some (S "DROP"), icmp_block_inversion := some true }

/-- Witness for C3 amended at a concrete zone carrying both a target and
icmp-block-inversion. -/
theorem generateZone_remove_ignores_target_witness :
    c3bZone.target = some (S "DROP") ∧
    c3bZone.icmp_block_inversion = some true ∧
    (∃ rest, generateZoneCommandsDual (S "public") c3bZone (S "add") false
      = (S "firewall-cmd --permanent --zone=" ++ S "public" ++ S " " ++
         (S "--set-target=" ++ S "DROP")) :: rest) ∧
    (S "firewall-cmd --permanent --zone=" ++ S "public" ++ S " " ++
        S "--remove-icmp-block-inversion")
      ∈ generateZoneCommandsDual (S "public") c3bZone (S "remove") false :=
  ⟨rfl, rfl,
   (generateZone_remove_ignores_target (S "public") c3bZone false).2.1 (S "DROP") rfl,
   (generateZone_remove_ignores_target (S "public") c3bZone false).2.2 rfl⟩

/-! ## Reverse parser (reverse-parser.mjs) -/

/-- Read a single-quoted span: returns the content and the rest after the
closing quote (or end of line). -/
def readQuoted : Str → Str × Str
  | [] => ([], [])
  | c :: cs =>
    if c = '\'' then ([], cs)
    else
      let p := readQuoted cs
      (c :: p.1, p.2)

/-- Read one regular token (until a space), splicing in single-quoted
spans (`--flag='…'`). -/
def readTokenAux : Nat → Str → Str × Str
  | 0, s => ([], s)
  | _ + 1, [] => ([], [])
  | fuel + 1, c :: cs =>
    if c = ' ' then ([], c :: cs)
    else if c = '\'' then
      let q := readQuoted cs
      let p := readTokenAux fuel q.2
      (q.1 ++ p.1, p.2)
    else
      let p := readTokenAux fuel cs
      (c :: p.1, p.2)

/-- `tokenizeLine` of reverse-parser.mjs: split on spaces, preserving
single-quoted strings. -/
def tokenizeAux : Nat → Str → List Str
  | 0, _ => []
  | _ + 1, [] => []
  | fuel + 1, c :: cs =>
    if c = ' ' then tokenizeAux fuel cs
    else if c = '\'' then
      let q := readQuoted cs
      q.1 :: tokenizeAux fuel q.2
    else
      let p := readTokenAux (c :: cs).length (c :: cs)
      p.1 :: tokenizeAux fuel p.2

/-- Tokenize one command line. -/
def tokenizeLine (line : Str) : List Str := tokenizeAux line.length line

/-- A flag value: `--key=value` gives a string, bare `--flag` gives true. -/
inductive FlagVal where
  | fstr (s : Str)
  | fbool
deriving DecidableEq

/-- A flag map in insertion order (JS object semantics: re-assignment
keeps the original position). -/
abbrev Flags := List (Str × FlagVal)

/-- Set a flag, keeping the original position on overwrite. -/
def setFlag (flags : Flags) (k : Str) (v : FlagVal) : Flags :=
  if flags.any fun kv => kv.1 = k then
    flags.map fun kv => if kv.1 = k then (k, v) else kv
  else flags ++ [(k, v)]

/-- Flag lookup. -/
def lookupFlag (flags : Flags) (k : Str) : Option FlagVal :=
  (flags.find? fun kv => kv.1 = k).map fun kv => kv.2

/-- Delete a flag (JS `delete`). -/
def removeFlag (flags : Flags) (k : Str) : Flags :=
  flags.filter fun kv => ¬ kv.1 = k

/-- First index of a character in a string (`indexOf`). -/
def findIdxEq (s : Str) (c : Char) : Option Nat := s.findIdx? fun d => d = c

/-- `parseFlags` of reverse-parser.mjs: split tokens into a flag map and
positional arguments, dropping the command name and `sudo`. -/
def parseFlags (tokens : List Str) : Flags × List Str :=
  tokens.foldl
    (fun acc token =>
      if (S "--").isPrefixOf token then
        match findIdxEq token '=' with
        | some eqIdx =>
          (setFlag acc.1 ((token.drop 2).take (eqIdx - 2))
            (FlagVal.fstr (token.drop (eqIdx + 1))), acc.2)
        | none => (setFlag acc.1 (token.drop 2) FlagVal.fbool, acc.2)
      else if token = S "firewall-cmd" ∨ token = S "sudo" then acc
      else (acc.1, acc.2 ++ [token]))
    ([], [])

/-- A parsed `port/protocol` pair. -/
structure RPPort where
  port : Str
  protocol : Str
deriving DecidableEq

/-- `parsePort` of reverse-parser.mjs. -/
def parsePort (value : Str) : RPPort :=
  match findIdxEq value '/' with
  | none => ⟨value, S "tcp"⟩
  | some i => ⟨value.take i, value.drop (i + 1)⟩

/-- Split a string on a separator character (JS `String.split`). -/
def splitChar (sep : Char) : Str → List Str
  | [] => [[]]
  | c :: cs =>
    match splitChar sep cs with
    | [] => [[]]
    | h :: t => if c = sep then [] :: h :: t else (c :: h) :: t

/-- `parseForwardPort` of reverse-parser.mjs: parse
`port=P:proto=PR[:toport=T][:toaddr=A]`. -/
def parseForwardPort (value : Str) : RRFwd :=
  (splitChar ':' value).foldl
    (fun acc part =>
      match findIdxEq part '=' with
      | none => acc
      | some i =>
        let key := part.take i
        let v := part.drop (i + 1)
        if key = S "port" then { acc with port := some v }
        else if key = S "proto" then { acc with protocol := some v }
        else if key = S "toport" then { acc with to_port := some v }
        else if key = S "toaddr" then { acc with to_addr := some v }
        else acc)
    {}

/-- Read a double-quoted span: content, rest, and whether it was closed. -/
def readDQ : Str → Str × Str × Bool
  | [] => ([], [], false)
  | c :: cs =>
    if c = '"' then ([], cs, true)
    else
      let p := readDQ cs
      (c :: p.1, p.2.1, p.2.2)

/-- Read one rich-rule token (until a space), keeping `key="value"` pairs
together (quotes included). -/
def rrTokenAux : Nat → Str → Str × Str
  | 0, s => ([], s)
  | _ + 1, [] => ([], [])
  | fuel + 1, c :: cs =>
    if c = ' ' then ([], c :: cs)
    else if c = '"' then
      let q := readDQ cs
      let p := rrTokenAux fuel q.2.1
      ('"' :: q.1 ++ (if q.2.2 then ['"'] else []) ++ p.1, p.2)
    else
      let p := rrTokenAux fuel cs
      (c :: p.1, p.2)

/-- Tokenizer of `parseRichRule`. -/
def rrTokenize : Nat → Str → List Str
  | 0, _ => []
  | _ + 1, [] => []
  | fuel + 1, c :: cs =>
    if c = ' ' then rrTokenize fuel cs
    else
      let p := rrTokenAux (c :: cs).length (c :: cs)
      p.1 :: rrTokenize fuel p.2

/-- `extractValue` of parseRichRule: value after `=`, unquoted. -/
def extractValue (token : Str) : Str :=
  match findIdxEq token '=' with
  | none => token
  | some i =>
    let v := token.drop (i + 1)
    if v.head? = some '"' ∧ v.getLast? = some '"' then (v.drop 1).dropLast else v

/-- `attrName` of parseRichRule: attribute name before `=`. -/
def attrName (token : Str) : Str :=
  match findIdxEq token '=' with
  | none => token
  | some i => token.take i

/-- Port-element scanning loop of parseRichRule. -/
def rrPortLoop : List Str → RichRule → RichRule × List Str
  | [], r => (r, [])
  | t :: rest, r =>
    if attrName t = S "port" then rrPortLoop rest { r with port := some (extractValue t) }
    else if attrName t = S "protocol" then
      rrPortLoop rest { r with protocol := some (extractValue t) }
    else (r, t :: rest)

/-- Forward-port scanning loop of parseRichRule. -/
def rrFwdLoop : List Str → RRFwd → RRFwd × List Str
  | [], fp => (fp, [])
  | t :: rest, fp =>
    if attrName t = S "port" then rrFwdLoop rest { fp with port := some (extractValue t) }
    else if attrName t = S "protocol" then
      rrFwdLoop rest { fp with protocol := some (extractValue t) }
    else if attrName t = S "to-port" then
      rrFwdLoop rest { fp with to_port := some (extractValue t) }
    else if attrName t = S "to-addr" then
      rrFwdLoop rest { fp with to_addr := some (extractValue t) }
    else (fp, t :: rest)

/-- Source-port scanning loop of parseRichRule. -/
def rrSPLoop : List Str → RRPort → RRPort × List Str
  | [], sp => (sp, [])
  | t :: rest, sp =>
    if attrName t = S "port" then rrSPLoop rest { sp with port := some (extractValue t) }
    else if attrName t = S "protocol" then
      rrSPLoop rest { sp with protocol := some (extractValue t) }
    else (sp, t :: rest)

/-- Log scanning loop of parseRichRule (fueled: the limit branch can
consume one token without setting a field). -/
def rrLogLoopF : Nat → List Str → LogSpec → LogSpec × List Str
  | 0, ts, lg => (lg, ts)
  | _ + 1, [], lg => (lg, [])
  | fuel + 1, t :: rest, lg =>
    if attrName t = S "prefix" then
      rrLogLoopF fuel rest { lg with logPrefix := some (extractValue t) }
    else if attrName t = S "level" then
      rrLogLoopF fuel rest { lg with level := some (extractValue t) }
    else if attrName t = S "limit" then
      match rest with
      | [] => (lg, [])
      | t2 :: rest2 =>
        if attrName t2 = S "value" then
          rrLogLoopF fuel rest2 { lg with limit := some (extractValue t2) }
        else rrLogLoopF fuel (t2 :: rest2) lg
    else (lg, t :: rest)

/-- Log scanning loop of parseRichRule. -/
def rrLogLoop (ts : List Str) (lg : LogSpec) : LogSpec × List Str :=
  rrLogLoopF ts.length ts lg

/-- `parseRichRule` of reverse-parser.mjs: walk the quote-aware tokens in
the fixed field order, stopping as soon as an expected keyword is
absent. -/
def parseRichRule (ruleStr : Str) : RichRule :=
  let toks := rrTokenize ruleStr.length ruleStr
  let toks := match toks with
    | t :: rest => if t = S "rule" then rest else t :: rest
    | [] => []
  let st : RichRule × List Str :=
    match toks with
    | t :: rest =>
      if attrName t = S "family" then ({ family := some (extractValue t) }, rest)
      else ({}, t :: rest)
    | [] => ({}, [])
  let st :=
    match st.2 with
    | t :: rest =>
      if t = S "source" then
        let st2 : RichRule × List Str :=
          match rest with
          | t2 :: rest2 =>
            if attrName t2 = S "address" then
              ({ st.1 with source := some (extractValue t2) }, rest2)
            else (st.1, t2 :: rest2)
          | [] => (st.1, [])
        match st2.2 with
        | t3 :: rest3 =>
          if attrName t3 = S "invert" then
            (if extractValue t3 = S "true" then { st2.1 with source_invert := true }
             else st2.1, rest3)
          else (st2.1, t3 :: rest3)
        | [] => (st2.1, [])
      else (st.1, t :: rest)
    | [] => st
  let st :=
    match st.2 with
    | t :: rest =>
      if t = S "destination" then
        let st2 : RichRule × List Str :=
          match rest with
          | t2 :: rest2 =>
            if attrName t2 = S "address" then
              ({ st.1 with destination := some (extractValue t2) }, rest2)
            else (st.1, t2 :: rest2)
          | [] => (st.1, [])
        match st2.2 with
        | t3 :: rest3 =>
          if attrName t3 = S "invert" then
            (if extractValue t3 = S "true" then { st2.1 with destination_invert := true }
             else st2.1, rest3)
          else (st2.1, t3 :: rest3)
        | [] => (st2.1, [])
      else (st.1, t :: rest)
    | [] => st
  let st :=
    match st.2 with
    | kw :: rest =>
      if kw = S "service" then
        match rest with
        | t :: r2 =>
          if attrName t = S "name" then ({ st.1 with service := some (extractValue t) }, r2)
          else (st.1, t :: r2)
        | [] => (st.1, [])
      else if kw = S "port" then rrPortLoop rest st.1
      else if kw = S "protocol" then
        match rest with
        | t :: r2 =>
          if attrName t = S "value" then ({ st.1 with protocol := some (extractValue t) }, r2)
          else (st.1, t :: r2)
        | [] => (st.1, [])
      else if kw = S "icmp-block" then
        match rest with
        | t :: r2 =>
          if attrName t = S "name" then ({ st.1 with icmp_block := some (extractValue t) }, r2)
          else (st.1, t :: r2)
        | [] => (st.1, [])
      else if kw = S "icmp-type" then
        match rest with
        | t :: r2 =>
          if attrName t = S "name" then ({ st.1 with icmp_type := some (extractValue t) }, r2)
          else (st.1, t :: r2)
        | [] => (st.1, [])
      else if kw = S "masquerade" then ({ st.1 with masquerade := true }, rest)
      else if kw = S "forward-port" then
        let fp := rrFwdLoop rest {}
        ({ st.1 with forward_port := some fp.1 }, fp.2)
      else if kw = S "source-port" then
        let sp := rrSPLoop rest {}
        ({ st.1 with source_port := some sp.1 }, sp.2)
      else (st.1, kw :: rest)
    | [] => st
  let st :=
    match st.2 with
    | t :: rest =>
      if t = S "log" then
        let lg := rrLogLoop rest {}
        ({ st.1 with log := some lg.1 }, lg.2)
      else (st.1, t :: rest)
    | [] => st
  let st :=
    match st.2 with
    | t :: rest =>
      if t = S "audit" then ({ st.1 with audit := true }, rest)
      else (st.1, t :: rest)
    | [] => st
  let st :=
    match st.2 with
    | t :: rest =>
      if t = S "accept" ∨ t = S "drop" then ({ st.1 with action := some t }, rest)
      else if t = S "reject" then
        match rest with
        | t2 :: rest2 =>
          if attrName t2 = S "type" then
            ({ st.1 with
                action := some (S "reject"),
                reject_type := some (extractValue t2) }, rest2)
          else ({ st.1 with action := some (S "reject") }, t2 :: rest2)
        | [] => ({ st.1 with action := some (S "reject") }, [])
      else if t = S "mark" then
        match rest with
        | t2 :: rest2 =>
          if attrName t2 = S "set" then
            ({ st.1 with
                action := some (S "mark"),
                mark_set := some (extractValue t2) }, rest2)
          else ({ st.1 with action := some (S "mark") }, t2 :: rest2)
        | [] => ({ st.1 with action := some (S "mark") }, [])
      else (st.1, t :: rest)
    | [] => st
  st.1

/-- `normalizeFlag` of reverse-parser.mjs. -/
def normalizeFlag (flag : Str) : Str :=
  if (S "add-").isPrefixOf flag then flag.drop 4
  else if (S "remove-").isPrefixOf flag then flag.drop 7
  else flag

/-- A zone as reconstructed by the reverse parser.  Values of zone flags
are stored verbatim (a bare flag stores the boolean true, mirroring the
JS object). -/
structure RZone where
  target : Option FlagVal := none
  interfaces : Option (List FlagVal) := none
  sources : Option (List FlagVal) := none
  services : Option (List FlagVal) := none
  ports : Option (List RPPort) := none
  protocols : Option (List FlagVal) := none
  source_ports : Option (List RPPort) := none
  rich_rules : Option (List RichRule) := none
  forward : Option Bool := none
  masquerade : Option Bool := none
  forward_ports : Option (List RRFwd) := none
  icmp_blocks : Option (List Str) := none
  icmp_block_inversion : Option Bool := none
deriving DecidableEq

/-- The effect one flag has in `processZoneCommand`: skip to the next
flag, update the zone (handled), or raise a TypeError. -/
inductive ZAct where
  | skip
  | setz (f : RZone → RZone)
  | throw

/-- The per-flag dispatch of `processZoneCommand` (reverse-parser.mjs):
the if-chain over the normalized flag name.  `throw` marks the
flag/value combinations on which the JS code would raise a TypeError
(`parsePort`/`parseForwardPort` applied to a boolean). -/
def zoneAct (k : Str) (v : FlagVal) : ZAct :=
  if k = S "zone" ∨ k = S "permanent" ∨ k = S "direct" then ZAct.skip
  else
    let base := normalizeFlag k
    if k = S "set-target" then ZAct.setz fun zone => { zone with target := some v }
    else if base = S "interface" then
      ZAct.setz fun zone => { zone with interfaces := some (zone.interfaces.getD [] ++ [v]) }
    else if base = S "source" then
      ZAct.setz fun zone => { zone with sources := some (zone.sources.getD [] ++ [v]) }
    else if base = S "service" then
      ZAct.setz fun zone => { zone with services := some (zone.services.getD [] ++ [v]) }
    else if base = S "port" then
      match v with
      | FlagVal.fstr s =>
        ZAct.setz fun zone => { zone with ports := some (zone.ports.getD [] ++ [parsePort s]) }
      | FlagVal.fbool => ZAct.throw
    else if base = S "protocol" then
      ZAct.setz fun zone => { zone with protocols := some (zone.protocols.getD [] ++ [v]) }
    else if base = S "source-port" then
      match v with
      | FlagVal.fstr s =>
        ZAct.setz fun zone =>
          { zone with source_ports := some (zone.source_ports.getD [] ++ [parsePort s]) }
      | FlagVal.fbool => ZAct.throw
    else if base = S "rich-rule" then
      match v with
      | FlagVal.fstr s =>
        ZAct.setz fun zone =>
          { zone with rich_rules := some (zone.rich_rules.getD [] ++ [parseRichRule s]) }
      | FlagVal.fbool =>
        ZAct.setz fun zone => { zone with rich_rules := some (zone.rich_rules.getD [] ++ [{}]) }
    else if base = S "forward" then
      match v with
      | FlagVal.fbool => ZAct.setz fun zone => { zone with forward := some true }
      | FlagVal.fstr _ => ZAct.skip
    else if base = S "masquerade" then
      match v with
      | FlagVal.fbool => ZAct.setz fun zone => { zone with masquerade := some true }
      | FlagVal.fstr _ => ZAct.skip
    else if base = S "forward-port" then
      match v with
      | FlagVal.fstr s =>
        ZAct.setz fun zone =>
          { zone with forward_ports := some (zone.forward_ports.getD [] ++ [parseForwardPort s]) }
      | FlagVal.fbool => ZAct.throw
    else if base = S "icmp-block" then
      match v with
      | FlagVal.fstr s =>
        ZAct.setz fun zone => { zone with icmp_blocks := some (zone.icmp_blocks.getD [] ++ [s]) }
      | FlagVal.fbool => ZAct.skip
    else if base = S "icmp-block-inversion" then
      ZAct.setz fun zone => { zone with icmp_block_inversion := some true }
    else ZAct.skip

/-- `processZoneCommand` of reverse-parser.mjs: dispatch on the first
matching action flag, in flag insertion order.  Returns `none` when the
JS code would throw. -/
def processZoneCommand (zone : RZone) : Flags → Option (Bool × RZone)
  | [] => some (false, zone)
  | (k, v) :: rest =>
    match zoneAct k v with
    | ZAct.skip => processZoneCommand zone rest
    | ZAct.setz f => some (true, f zone)
    | ZAct.throw => none

/-- A direct rule as reconstructed by the reverse parser (`parseInt` may
give NaN, modelled as `none`). -/
structure RDRule where
  ipv : Str
  table : Str
  chain : Str
  priority : Option Int
  args : Str
deriving DecidableEq

/-- A direct passthrough as reconstructed by the reverse parser. -/
structure RPass where
  ipv : Str
  args : Str
deriving DecidableEq

/-- The direct block being accumulated by the reverse parser. -/
structure RDirect where
  chains : List DChain := []
  rules : List RDRule := []
  passthroughs : List RPass := []
deriving DecidableEq

/-- Integer value of a digit run. -/
def digitsVal (ds : Str) : Int :=
  ds.foldl (fun acc c => acc * 10 + Int.ofNat (c.toNat - '0'.toNat)) 0

/-- JS `parseInt(s, 10)` (NaN modelled as `none`). -/
def parseIntM (s : Str) : Option Int :=
  let t := s.dropWhile isWsC
  let signed : Int × Str :=
    match t with
    | c :: cs => if c = '-' then (-1, cs) else if c = '+' then (1, cs) else (1, t)
    | [] => (1, t)
  let digits := signed.2.takeWhile Char.isDigit
  if digits.isEmpty then none else some (signed.1 * digitsVal digits)

/-- `processDirectCommand` of reverse-parser.mjs: read the positional
tokens after the direct action flag.  Returns `none` when the line could
not be parsed (per-line error). -/
def processDirectCommand (cfg : RDirect) (flags : Flags) (tokens : List Str) :
    Option RDirect :=
  let directAction := flags.find? fun kv =>
    kv.1 = S "add-chain" ∨ kv.1 = S "remove-chain" ∨ kv.1 = S "add-rule" ∨
    kv.1 = S "remove-rule" ∨ kv.1 = S "add-passthrough" ∨ kv.1 = S "remove-passthrough"
  match directAction with
  | none => none
  | some kv =>
    match tokens.findIdx? fun t => t = S "--" ++ kv.1 with
    | none => none
    | some flagIdx =>
      let positional := tokens.drop (flagIdx + 1)
      let base := normalizeFlag kv.1
      if base = S "chain" then
        match positional with
        | ipv :: table :: chain :: _ =>
          some { cfg with chains := cfg.chains ++ [⟨ipv, table, chain⟩] }
        | _ => none
      else if base = S "rule" then
        match positional with
        | ipv :: table :: chain :: pr :: rest =>
          if rest.length ≥ 1 then
            some { cfg with rules := cfg.rules ++ [⟨ipv, table, chain, parseIntM pr, joinSp rest⟩] }
          else none
        | _ => none
      else if base = S "passthrough" then
        match positional with
        | ipv :: rest =>
          if rest.length ≥ 1 then
            some { cfg with passthroughs := cfg.passthroughs ++ [⟨ipv, joinSp rest⟩] }
          else none
        | _ => none
      else none

/-- The raw configuration being accumulated by the reverse parser. -/
structure RState where
  zones : List (Str × RZone) := []
  direct : RDirect := {}
deriving DecidableEq

/-- Reverse-parser per-line error kinds (message strings abstracted). -/
inductive EKind where
  | shellVar
  | badDirect
  | badZone
  | unrecognized
deriving DecidableEq

/-- Reverse-parser skip kinds (message strings abstracted). -/
inductive SKind where
  | comment
  | notCommand
  | reload
  | query
deriving DecidableEq

/-- JS `String.trim` (whitespace from both ends). -/
def trimStr (s : Str) : Str :=
  ((s.dropWhile isWsC).reverse.dropWhile isWsC).reverse

/-- Strip a leading `sudo ` prefix. -/
def stripSudo (s : Str) : Str :=
  if (S "sudo ").isPrefixOf s then s.drop 5 else s

/-- The shell-variable test `/\$(?:\w|\x7b|\()/` applied to the whole line. -/
def hasShellVar : Str → Bool
  | [] => false
  | c :: cs =>
    (c = '$' && match cs with
      | d :: _ => isWordC d || d = '\x7b' || d = '('
      | [] => false) || hasShellVar cs

/-- JS truthiness of a flag value. -/
def truthyFlag : Option FlagVal → Bool
  | some FlagVal.fbool => true
  | some (FlagVal.fstr s) => !s.isEmpty
  | none => false

/-- The query/introspection test of parseCommands. -/
def isSkippable (flags : Flags) : Bool :=
  flags.any fun kv =>
    kv.1 = S "runtime-to-permanent" || kv.1 = S "check-config" ||
    kv.1 = S "state" || kv.1 = S "version" ||
    (S "get-").isPrefixOf kv.1 || (S "list-").isPrefixOf kv.1 ||
    (S "query-").isPrefixOf kv.1

/-- Whether any flag is a modifying flag (an add- or remove- prefix, or set-target). -/
def hasModifying (flags : Flags) : Bool :=
  flags.any fun kv =>
    (S "add-").isPrefixOf kv.1 || (S "remove-").isPrefixOf kv.1 || kv.1 = S "set-target"

/-- The zone a line is attributed to: the `--zone` flag if truthy, else
`public` when the line carries a modifying flag (a bare `--zone` flag
stringifies to `true`). -/
def zoneNameOf (flags : Flags) : Option Str :=
  match lookupFlag flags (S "zone") with
  | some (FlagVal.fstr s) =>
    if s.isEmpty then (if hasModifying flags then some (S "public") else none)
    else some s
  | some FlagVal.fbool => some (S "true")
  | none => if hasModifying flags then some (S "public") else none

/-- Append the zone if absent (`ensureZone`). -/
def ensureZone (zs : List (Str × RZone)) (name : Str) : List (Str × RZone) :=
  if zs.any fun kv => kv.1 = name then zs else zs ++ [(name, ({} : RZone))]

/-- Current value of a zone. -/
def getZone (zs : List (Str × RZone)) (name : Str) : RZone :=
  ((zs.find? fun kv => kv.1 = name).map fun kv => kv.2).getD ({} : RZone)

/-- Write back a zone value in place. -/
def setZone (zs : List (Str × RZone)) (name : Str) (z : RZone) : List (Str × RZone) :=
  zs.map fun kv => if kv.1 = name then (name, z) else kv

/-- The flag map of a command line: parsed flags with `permanent`
deleted (parseCommands deletes it right after parseFlags). -/
def lineFlags (line : Str) : Flags :=
  removeFlag (parseFlags (tokenizeLine line)).1 (S "permanent")

/-- Classification of one input line, mirroring steps 1–10 of the per-line
state machine.  `thrown` marks the flag/value combinations on which the
JS code would raise a TypeError. -/
inductive LineRes where
  | blank
  | skip (k : SKind)
  | err (k : EKind)
  | errCfg (k : EKind) (c : RState)
  | newCfg (c : RState)
  | thrown
deriving DecidableEq

/-- Classify one line of input and compute its effect on the raw
configuration (line numbers play no role here). -/
def classifyLine (cfg : RState) (raw : Str) : LineRes :=
  let trimmed := trimStr raw
  if trimmed = [] then LineRes.blank
  else if trimmed.head? = some '#' then LineRes.skip SKind.comment
  else
    let line := stripSudo trimmed
    if ¬ (S "firewall-cmd").isPrefixOf line then LineRes.skip SKind.notCommand
    else if hasShellVar line then LineRes.err EKind.shellVar
    else
      let tokens := tokenizeLine line
      let flags := lineFlags line
      if truthyFlag (lookupFlag flags (S "reload")) ||
          truthyFlag (lookupFlag flags (S "complete-reload")) then
        LineRes.skip SKind.reload
      else if isSkippable flags then LineRes.skip SKind.query
      else if truthyFlag (lookupFlag flags (S "direct")) then
        match processDirectCommand cfg.direct flags tokens with
        | some d' => LineRes.newCfg { cfg with direct := d' }
        | none => LineRes.err EKind.badDirect
      else
        match zoneNameOf flags with
        | some zoneName =>
          let flags' := removeFlag flags (S "zone")
          let zones1 := ensureZone cfg.zones zoneName
          match processZoneCommand (getZone zones1 zoneName) flags' with
          | none => LineRes.thrown
          | some (true, z') =>
            LineRes.newCfg { cfg with zones := setZone zones1 zoneName z' }
          | some (false, z') =>
            LineRes.errCfg EKind.badZone { cfg with zones := setZone zones1 zoneName z' }
        | none => LineRes.err EKind.unrecognized

/-- Accumulated reverse-parse state. -/
structure RAcc where
  cfg : RState := {}
  errors : List (Nat × EKind) := []
  skipped : List (Nat × SKind) := []
deriving DecidableEq

/-- One step of the parseCommands loop (argument `idx` is 0-based). -/
def processLine (acc : RAcc) (idx : Nat) (raw : Str) : Option RAcc :=
  match classifyLine acc.cfg raw with
  | LineRes.blank => some acc
  | LineRes.skip k => some { acc with skipped := acc.skipped ++ [(idx + 1, k)] }
  | LineRes.err k => some { acc with errors := acc.errors ++ [(idx + 1, k)] }
  | LineRes.errCfg k c => some { acc with cfg := c, errors := acc.errors ++ [(idx + 1, k)] }
  | LineRes.newCfg c => some { acc with cfg := c }
  | LineRes.thrown => none

/-- Fold of processLine over the numbered lines. -/
def parseLinesAux : Nat → RAcc → List Str → Option RAcc
  | _, acc, [] => some acc
  | i, acc, l :: ls =>
    match processLine acc i l with
    | some acc' => parseLinesAux (i + 1) acc' ls
    | none => none

/-- The cleaned direct block of the returned fragment. -/
structure CleanDirect where
  chains : Option (List DChain) := none
  rules : Option (List RDRule) := none
  passthroughs : Option (List RPass) := none
deriving DecidableEq

/-- The cleaned configuration fragment returned by parseCommands. -/
structure CleanConfig where
  zones : Option (List (Str × RZone)) := none
  direct : Option CleanDirect := none
deriving DecidableEq

/-- `cleanConfig` of reverse-parser.mjs: drop empty sections and
deduplicate direct chains by the `ipv|table|chain` triple. -/
def cleanConfig (cfg : RState) : CleanConfig :=
  ⟨if cfg.zones.length > 0 then some cfg.zones else none,
   if cfg.direct.chains.length > 0 ∨ cfg.direct.rules.length > 0 ∨
       cfg.direct.passthroughs.length > 0 then
     some ⟨if cfg.direct.chains.length > 0 then
             some (dedup (fun c : DChain => c.ipv ++ S "|" ++ c.table ++ S "|" ++ c.chain)
               cfg.direct.chains)
           else none,
           if cfg.direct.rules.length > 0 then some cfg.direct.rules else none,
           if cfg.direct.passthroughs.length > 0 then some cfg.direct.passthroughs else none⟩
   else none⟩

/-- `parseCommands` of reverse-parser.mjs over a list of lines.  `none`
models the TypeError escaping the whole call. -/
def parseCommandsLines (lines : List Str) :
    Option (CleanConfig × List (Nat × EKind) × List (Nat × SKind)) :=
  (parseLinesAux 0 {} lines).map fun acc => (cleanConfig acc.cfg, acc.errors, acc.skipped)

/-- `parseCommands` on raw multi-line text. -/
def parseCommands (text : Str) :
    Option (CleanConfig × List (Nat × EKind) × List (Nat × SKind)) :=
  parseCommandsLines (splitChar '\n' text)

/-- A concrete three-variable chain used to exhibit single-hop resolution. -/
def chainVars : Vars :=
  [(S "a", VarVal.vstr (S "\x7b\x7b b \x7d\x7d")),
   (S "b", VarVal.vstr (S "\x7b\x7b c \x7d\x7d")),
   (S "c", VarVal.vstr (S "v"))]

/-- C5: variable resolution is single-hop.  In the mapping where `a`
references `b`, `b` references `c` and `c` is the scalar `v`,
`resolveVariables` replaces each reference with the referenced
variable's pre-resolution value: `a` becomes the literal text
`\x7b\x7b c \x7d\x7d` — a dangling, unexpanded reference to `c` — while `b`
resolves to `v`.  No recursive resolution is performed. -/
theorem resolveVariables_single_hop :
    resolveVariables chainVars =
      [(S "a", VarVal.vstr (S "\x7b\x7b c \x7d\x7d")),
       (S "b", VarVal.vstr (S "v")),
       (S "c", VarVal.vstr (S "v"))] ∧
    lookupVar (resolveVariables chainVars) (S "a") =
      some (VarVal.vstr (S "\x7b\x7b c \x7d\x7d")) := by
  constructor <;> rfl

/-- The rich-rule string of the round-trip scenario. -/
def c1RuleStr : Str :=
  S "rule family=\"ipv4\" source address=\"10.0.0.1\" service name=\"ssh\" accept"

/-- The rich-rule object of the round-trip scenario. -/
def c1Rule : RichRule :=
  { family := some (S "ipv4"), source := some (S "10.0.0.1"),
    service := some (S "ssh"), action := some (S "accept") }

/-- C1: round-trip of the rich-rule sub-grammar.  Parsing the scenario
string with `parseRichRule` yields exactly the object with family
`ipv4`, source `10.0.0.1`, service `ssh` and action `accept` (every
other field at its default), and `buildRichRule` on that object
reproduces the input string character for character. -/
theorem richRule_roundtrip :
    parseRichRule c1RuleStr = c1Rule ∧ buildRichRule c1Rule = c1RuleStr := by
  constructor <;> rfl

/-! ## C7: shell-variable lines -/

/-- The configuration effect of one line depends only on the incoming
configuration, not on the error/skip accumulators or the line number. -/
theorem processLine_cfg_eq {acc1 acc2 : RAcc} (h : acc1.cfg = acc2.cfg) (i j : Nat)
    (l : Str) :
    Option.map RAcc.cfg (processLine acc1 i l) = Option.map RAcc.cfg (processLine acc2 j l) := by
  unfold processLine
  rw [h]
  cases classifyLine acc2.cfg l <;> simp [h]

/-- Folding processLine from accumulators with equal configurations
yields equal configurations (and equal success/failure). -/
theorem parseLinesAux_cfg_eq :
    ∀ (ls : List Str) (acc1 acc2 : RAcc), acc1.cfg = acc2.cfg → ∀ (i j : Nat),
      Option.map RAcc.cfg (parseLinesAux i acc1 ls) =
        Option.map RAcc.cfg (parseLinesAux j acc2 ls) := by
  intro ls
  induction ls with
  | nil => intro acc1 acc2 h i j; simp [parseLinesAux, h]
  | cons l ls ih =>
    intro acc1 acc2 h i j
    have hstep := processLine_cfg_eq h i j l
    simp only [parseLinesAux]
    cases h1 : processLine acc1 i l with
    | none =>
      cases h2 : processLine acc2 j l with
      | none => rfl
      | some a2 => rw [h1, h2] at hstep; simp at hstep
    | some a1 =>
      cases h2 : processLine acc2 j l with
      | none => rw [h1, h2] at hstep; simp at hstep
      | some a2 =>
        rw [h1, h2] at hstep
        simp at hstep
        exact ih a1 a2 hstep (i + 1) (j + 1)

/-- A line that is a firewall-cmd command after trimming and sudo
stripping is nonempty after trimming and does not start with `#`. -/
theorem stripSudo_trim_shape (raw : Str)
    (hpre : (S "firewall-cmd").isPrefixOf (stripSudo (trimStr raw)) = true) :
    trimStr raw ≠ [] ∧ (trimStr raw).head? ≠ some '#' := by
  unfold stripSudo at hpre
  by_cases hs : (S "sudo ").isPrefixOf (trimStr raw) = true
  · obtain ⟨v, hv⟩ := isPrefixOf_iff_exists.mp hs
    rw [hv]
    exact ⟨by simp [S], by simp [S]⟩
  · rw [if_neg (by simpa using hs)] at hpre
    obtain ⟨v, hv⟩ := isPrefixOf_iff_exists.mp hpre
    rw [hv]
    exact ⟨by simp [S], by simp [S]⟩

/-- A recognized command line containing a shell variable classifies as
a shellVar error, leaving the configuration untouched. -/
theorem classifyLine_shellvar (cfg : RState) (raw : Str)
    (hpre : (S "firewall-cmd").isPrefixOf (stripSudo (trimStr raw)) = true)
    (hsv : hasShellVar (stripSudo (trimStr raw)) = true) :
    classifyLine cfg raw = LineRes.err EKind.shellVar := by
  obtain ⟨hne, hhd⟩ := stripSudo_trim_shape raw hpre
  simp only [classifyLine]
  rw [if_neg hne, if_neg hhd, if_neg (not_not_intro hpre), if_pos hsv]

/-- processLine on a shell-variable line records the error and keeps
everything else of the accumulator. -/
theorem processLine_shellvar (acc : RAcc) (i : Nat) (raw : Str)
    (hpre : (S "firewall-cmd").isPrefixOf (stripSudo (trimStr raw)) = true)
    (hsv : hasShellVar (stripSudo (trimStr raw)) = true) :
    processLine acc i raw =
      some { acc with errors := acc.errors ++ [(i + 1, EKind.shellVar)] } := by
  unfold processLine
  rw [classifyLine_shellvar acc.cfg raw hpre hsv]

/-- Splitting the fold of processLine at a list append. -/
theorem parseLinesAux_append :
    ∀ (xs ys : List Str) (i : Nat) (acc : RAcc),
      parseLinesAux i acc (xs ++ ys) =
        (parseLinesAux i acc xs).bind fun a => parseLinesAux (i + xs.length) a ys := by
  intro xs
  induction xs with
  | nil => intro ys i acc; simp [parseLinesAux]
  | cons x xs ih =>
    intro ys i acc
    simp only [List.cons_append, parseLinesAux, List.length_cons]
    cases h1 : processLine acc i x with
    | none => rfl
    | some a =>
      show parseLinesAux (i + 1) a (xs ++ ys) =
        (parseLinesAux (i + 1) a xs).bind fun a => parseLinesAux (i + (xs.length + 1)) a ys
      rw [ih ys (i + 1) a]
      have h : i + 1 + xs.length = i + (xs.length + 1) := by omega
      rw [h]

/-- A successful processLine step only appends to the error list. -/
theorem processLine_errors_ext (acc : RAcc) (i : Nat) (l : Str) (a : RAcc) :
    processLine acc i l = some a → ∃ t, a.errors = acc.errors ++ t := by
  unfold processLine
  cases classifyLine acc.cfg l with
  | blank => intro h; injection h with h; subst h; exact ⟨[], by simp⟩
  | skip k => intro h; injection h with h; subst h; exact ⟨[], by simp⟩
  | err k => intro h; injection h with h; subst h; exact ⟨[(i + 1, k)], rfl⟩
  | errCfg k c => intro h; injection h with h; subst h; exact ⟨[(i + 1, k)], rfl⟩
  | newCfg c => intro h; injection h with h; subst h; exact ⟨[], by simp⟩
  | thrown => intro h; exact absurd h (by simp)

/-- Errors already recorded survive the rest of the fold. -/
theorem parseLinesAux_errors_mono :
    ∀ (ls : List Str) (i : Nat) (acc a : RAcc), parseLinesAux i acc ls = some a →
      ∀ e ∈ acc.errors, e ∈ a.errors := by
  intro ls
  induction ls with
  | nil =>
    intro i acc a h e he
    simp only [parseLinesAux] at h
    injection h with h
    subst h
    exact he
  | cons l ls ih =>
    intro i acc a h e he
    simp only [parseLinesAux] at h
    cases h1 : processLine acc i l with
    | none => rw [h1] at h; simp at h
    | some a1 =>
      rw [h1] at h
      simp only [] at h
      obtain ⟨t, ht⟩ := processLine_errors_ext acc i l a1 h1
      exact ih (i + 1) a1 a h e (by rw [ht]; exact List.mem_append_left _ he)

/-- C7: a command line containing an unexpanded shell-variable reference
contributes nothing to the resulting configuration fragment — parsing
with the line inserted yields the same fragment (and the same
success/failure) as parsing without it — and when parsing succeeds the
batch result records a shell-variable error at that line's number, so
subsequent lines still parse. -/
theorem parseCommands_shellvar_line (pre post : List Str) (bad : Str)
    (hpre : (S "firewall-cmd").isPrefixOf (stripSudo (trimStr bad)) = true)
    (hsv : hasShellVar (stripSudo (trimStr bad)) = true) :
    Option.map (fun r => r.1) (parseCommandsLines (pre ++ bad :: post)) =
      Option.map (fun r => r.1) (parseCommandsLines (pre ++ post)) ∧
    ∀ r, parseCommandsLines (pre ++ bad :: post) = some r →
      (pre.length + 1, EKind.shellVar) ∈ r.2.1 := by
  have hcfg : Option.map RAcc.cfg (parseLinesAux 0 {} (pre ++ bad :: post)) =
      Option.map RAcc.cfg (parseLinesAux 0 {} (pre ++ post)) := by
    rw [parseLinesAux_append pre (bad :: post) 0 {}, parseLinesAux_append pre post 0 {}]
    cases hp : parseLinesAux 0 {} pre with
    | none => rfl
    | some p =>
      simp only [Option.bind]
      have hstep := processLine_shellvar p (0 + pre.length) bad hpre hsv
      have hone : parseLinesAux (0 + pre.length) p (bad :: post) =
          parseLinesAux (0 + pre.length + 1)
            { p with errors := p.errors ++ [(0 + pre.length + 1, EKind.shellVar)] } post := by
        simp only [parseLinesAux, hstep]
      rw [hone]
      exact parseLinesAux_cfg_eq post
        { p with errors := p.errors ++ [(0 + pre.length + 1, EKind.shellVar)] } p rfl
        (0 + pre.length + 1) (0 + pre.length)
  constructor
  · cases hA : parseLinesAux 0 {} (pre ++ bad :: post) with
    | none =>
      cases hB : parseLinesAux 0 {} (pre ++ post) with
      | none => simp [parseCommandsLines, hA, hB]
      | some b => rw [hA, hB] at hcfg; simp at hcfg
    | some a =>
      cases hB : parseLinesAux 0 {} (pre ++ post) with
      | none => rw [hA, hB] at hcfg; simp at hcfg
      | some b =>
        rw [hA, hB] at hcfg
        simp at hcfg
        simp [parseCommandsLines, hA, hB, hcfg]
  · intro r hr
    simp only [parseCommandsLines] at hr
    cases hA : parseLinesAux 0 {} (pre ++ bad :: post) with
    | none => rw [hA] at hr; simp at hr
    | some a =>
      rw [hA] at hr
      injection hr with hr
      subst hr
      rw [parseLinesAux_append pre (bad :: post) 0 {}] at hA
      cases hp : parseLinesAux 0 {} pre with
      | none => rw [hp] at hA; simp at hA
      | some p =>
        rw [hp] at hA
        simp only [Option.bind] at hA
        have hstep := processLine_shellvar p (0 + pre.length) bad hpre hsv
        have hA2 : parseLinesAux (0 + pre.length + 1)
            { p with errors := p.errors ++ [(0 + pre.length + 1, EKind.shellVar)] } post =
            some a := by
          have hone : parseLinesAux (0 + pre.length) p (bad :: post) =
              parseLinesAux (0 + pre.length + 1)
                { p with errors := p.errors ++ [(0 + pre.length + 1, EKind.shellVar)] } post := by
            simp only [parseLinesAux, hstep]
          rw [← hone]
          exact hA
        have hmem := parseLinesAux_errors_mono post (0 + pre.length + 1) _ a hA2
          (0 + pre.length + 1, EKind.shellVar) (by simp)
        simpa using hmem

/-- A valid line preceding the shell-variable line. -/
def c7Pre : List Str := [S "firewall-cmd --permanent --zone=dmz --add-service=ssh"]

/-- The line with an unexpanded shell variable. -/
def c7Bad : Str := S "firewall-cmd --permanent --add-port=$PORT/tcp"

/-- A valid line following the shell-variable line. -/
def c7Post : List Str := [S "firewall-cmd --permanent --zone=dmz --add-service=http"]

/-- Concrete instance of the shell-variable insertion theorem. -/
theorem parseCommands_shellvar_line_witness :
    ((S "firewall-cmd").isPrefixOf (stripSudo (trimStr c7Bad)) = true ∧
     hasShellVar (stripSudo (trimStr c7Bad)) = true) ∧
    (Option.map (fun r => r.1) (parseCommandsLines (c7Pre ++ c7Bad :: c7Post)) =
       Option.map (fun r => r.1) (parseCommandsLines (c7Pre ++ c7Post)) ∧
     ∀ r, parseCommandsLines (c7Pre ++ c7Bad :: c7Post) = some r →
       (c7Pre.length + 1, EKind.shellVar) ∈ r.2.1) :=
  ⟨⟨by decide, by decide⟩,
   parseCommands_shellvar_line c7Pre c7Post c7Bad (by decide) (by decide)⟩

/-! ## C8: default-zone boundary -/

/-- A direct command line: recognized, zone-less, and carrying an
`add-` flag. -/
def c8Line : Str := S "firewall-cmd --permanent --direct --add-chain ipv4 filter MYCHAIN"

/-- C8 counterexample: the direct chain line is recognized, has no zone
flag and carries a modifying flag (`add-chain` starts with `add-`), yet
the parsed fragment has no zones at all — the line lands in the direct
block instead of being attributed to `public`. -/
theorem parseCommands_direct_modifying_no_zone :
    (S "firewall-cmd").isPrefixOf (stripSudo (trimStr c8Line)) = true ∧
    lookupFlag (lineFlags (stripSudo (trimStr c8Line))) (S "zone") = none ∧
    hasModifying (lineFlags (stripSudo (trimStr c8Line))) = true ∧
    Option.map (fun r => r.1.zones) (parseCommandsLines [c8Line]) = some none ∧
    Option.map (fun r => r.1.direct) (parseCommandsLines [c8Line]) =
      some (some ⟨some [⟨S "ipv4", S "filter", S "MYCHAIN"⟩], none, none⟩) := by
  refine ⟨by decide, by decide, by decide, by decide, by decide⟩

/-- The configuration a line result carries forward. -/
def cfgAfter (cfg : RState) : LineRes → RState
  | LineRes.errCfg _ c => c
  | LineRes.newCfg c => c
  | _ => cfg

/-- Whether processZoneCommand succeeds depends only on the flags, not
on the zone it starts from. -/
theorem processZoneCommand_isSome_indep :
    ∀ (fl : Flags) (z1 z2 : RZone),
      (processZoneCommand z1 fl).isSome = (processZoneCommand z2 fl).isSome := by
  intro fl
  induction fl with
  | nil => intro z1 z2; rfl
  | cons kv rest ih =>
    intro z1 z2
    obtain ⟨k, v⟩ := kv
    simp only [processZoneCommand]
    cases zoneAct k v with
    | skip => exact ih z1 z2
    | setz f => rfl
    | throw => rfl

/-- setZone writes the named entry when one exists. -/
theorem mem_setZone_of_key (zs : List (Str × RZone)) (n : Str) (z : RZone)
    (kv : Str × RZone) (hm : kv ∈ zs) (hk : kv.1 = n) : (n, z) ∈ setZone zs n z := by
  have h2 : (if kv.1 = n then (n, z) else kv) ∈ setZone zs n z :=
    List.mem_map_of_mem (fun kv : Str × RZone => if kv.1 = n then (n, z) else kv) hm
  rw [if_pos hk] at h2
  exact h2

/-- ensureZone guarantees an entry under the given name. -/
theorem ensureZone_has_key (zs : List (Str × RZone)) (n : Str) :
    ∃ kv ∈ ensureZone zs n, kv.1 = n := by
  unfold ensureZone
  by_cases h : (zs.any fun kv => kv.1 = n) = true
  · rw [if_pos h]
    obtain ⟨kv, hm, hk⟩ := List.any_eq_true.mp h
    exact ⟨kv, hm, by simpa using hk⟩
  · rw [if_neg h]
    exact ⟨(n, {}), List.mem_append_right _ (List.mem_singleton.mpr rfl), rfl⟩

/-- Entries under other names pass through setZone unchanged. -/
theorem mem_setZone_ne (p : Str × RZone) (zs : List (Str × RZone)) (n : Str) (z : RZone)
    (hne : p.1 ≠ n) : p ∈ setZone zs n z ↔ p ∈ zs := by
  unfold setZone
  constructor
  · intro h
    obtain ⟨kv, hm, hkv⟩ := List.mem_map.mp h
    by_cases hk : kv.1 = n
    · rw [if_pos hk] at hkv
      subst hkv
      simp at hne
    · rw [if_neg hk] at hkv
      subst hkv
      exact hm
  · intro h
    have h2 : (if p.1 = n then (n, z) else p) ∈ setZone zs n z :=
      List.mem_map_of_mem (fun kv : Str × RZone => if kv.1 = n then (n, z) else kv) h
    rw [if_neg hne] at h2
    exact h2

/-- Entries under other names pass through ensureZone unchanged. -/
theorem mem_ensureZone_ne (p : Str × RZone) (zs : List (Str × RZone)) (n : Str)
    (hne : p.1 ≠ n) : p ∈ ensureZone zs n ↔ p ∈ zs := by
  unfold ensureZone
  by_cases h : (zs.any fun kv => kv.1 = n) = true
  · rw [if_pos h]
  · rw [if_neg h]
    constructor
    · intro hm
      rcases List.mem_append.mp hm with h1 | h1
      · exact h1
      · rw [List.mem_singleton.mp h1] at hne
        simp at hne
    · intro hm
      exact List.mem_append_left _ hm

/-- C8 amended: the default-zone boundary, with the direct/reload/query
branches excluded from the modifying half.  A recognized zone-less line
with a modifying flag that is not a shell-variable, reload, query or
direct line and whose flags processZoneCommand accepts produces a
configuration with a `public` zone entry, all other zone entries
untouched and the direct block untouched; a zone-less line with no
modifying flag (any line at all) never changes the zone map. -/
theorem classifyLine_default_zone (cfg cfg2 : RState) (raw raw2 : Str)
    (hpre : (S "firewall-cmd").isPrefixOf (stripSudo (trimStr raw)) = true)
    (hsv : hasShellVar (stripSudo (trimStr raw)) = false)
    (hnz : lookupFlag (lineFlags (stripSudo (trimStr raw))) (S "zone") = none)
    (hm : hasModifying (lineFlags (stripSudo (trimStr raw))) = true)
    (hrel : (truthyFlag (lookupFlag (lineFlags (stripSudo (trimStr raw))) (S "reload")) ||
        truthyFlag (lookupFlag (lineFlags (stripSudo (trimStr raw)))
          (S "complete-reload"))) = false)
    (hskip : isSkippable (lineFlags (stripSudo (trimStr raw))) = false)
    (hdir : truthyFlag (lookupFlag (lineFlags (stripSudo (trimStr raw))) (S "direct")) = false)
    (hns : (processZoneCommand ({} : RZone)
        (removeFlag (lineFlags (stripSudo (trimStr raw))) (S "zone"))).isSome = true)
    (hnz2 : lookupFlag (lineFlags (stripSudo (trimStr raw2))) (S "zone") = none)
    (hnm2 : hasModifying (lineFlags (stripSudo (trimStr raw2))) = false) :
    (∃ c', (classifyLine cfg raw = LineRes.newCfg c' ∨
            classifyLine cfg raw = LineRes.errCfg EKind.badZone c') ∧
       (∃ z, (S "public", z) ∈ c'.zones) ∧
       (∀ p : Str × RZone, p.1 ≠ S "public" → (p ∈ c'.zones ↔ p ∈ cfg.zones)) ∧
       c'.direct = cfg.direct) ∧
    (cfgAfter cfg2 (classifyLine cfg2 raw2)).zones = cfg2.zones := by
  constructor
  · obtain ⟨hne, hhd⟩ := stripSudo_trim_shape raw hpre
    have hz : zoneNameOf (lineFlags (stripSudo (trimStr raw))) = some (S "public") := by
      simp [zoneNameOf, hnz, hm]
    have hiso : (processZoneCommand
        (getZone (ensureZone cfg.zones (S "public")) (S "public"))
        (removeFlag (lineFlags (stripSudo (trimStr raw))) (S "zone"))).isSome = true := by
      rw [processZoneCommand_isSome_indep _ _ ({} : RZone)]
      exact hns
    cases hpz : processZoneCommand (getZone (ensureZone cfg.zones (S "public")) (S "public"))
        (removeFlag (lineFlags (stripSudo (trimStr raw))) (S "zone")) with
    | none => rw [hpz] at hiso; simp at hiso
    | some bz =>
      obtain ⟨b, z'⟩ := bz
      have hmem : (S "public", z') ∈
          setZone (ensureZone cfg.zones (S "public")) (S "public") z' := by
        obtain ⟨kv, hkm, hkk⟩ := ensureZone_has_key cfg.zones (S "public")
        exact mem_setZone_of_key _ _ _ kv hkm hkk
      have hoth : ∀ p : Str × RZone, p.1 ≠ S "public" →
          (p ∈ setZone (ensureZone cfg.zones (S "public")) (S "public") z' ↔
            p ∈ cfg.zones) := by
        intro p hp
        exact (mem_setZone_ne p _ _ z' hp).trans (mem_ensureZone_ne p cfg.zones _ hp)
      cases b with
      | true =>
        have hcl : classifyLine cfg raw = LineRes.newCfg
            { cfg with zones := setZone (ensureZone cfg.zones (S "public")) (S "public") z' } := by
          simp only [classifyLine]
          rw [if_neg hne, if_neg hhd, if_neg (not_not_intro hpre), if_neg (by simp [hsv]),
              if_neg (by simp [hrel]), if_neg (by simp [hskip]), if_neg (by simp [hdir])]
          simp only [hz, hpz]
        exact ⟨_, Or.inl hcl, ⟨z', hmem⟩, hoth, rfl⟩
      | false =>
        have hcl : classifyLine cfg raw = LineRes.errCfg EKind.badZone
            { cfg with zones := setZone (ensureZone cfg.zones (S "public")) (S "public") z' } := by
          simp only [classifyLine]
          rw [if_neg hne, if_neg hhd, if_neg (not_not_intro hpre), if_neg (by simp [hsv]),
              if_neg (by simp [hrel]), if_neg (by simp [hskip]), if_neg (by simp [hdir])]
          simp only [hz, hpz]
        exact ⟨_, Or.inr hcl, ⟨z', hmem⟩, hoth, rfl⟩
  · simp only [classifyLine]
    by_cases h1 : trimStr raw2 = []
    · rw [if_pos h1]; rfl
    rw [if_neg h1]
    by_cases h2 : (trimStr raw2).head? = some '#'
    · rw [if_pos h2]; rfl
    rw [if_neg h2]
    by_cases h3 : (S "firewall-cmd").isPrefixOf (stripSudo (trimStr raw2)) = true
    · rw [if_neg (not_not_intro h3)]
      by_cases h4 : hasShellVar (stripSudo (trimStr raw2)) = true
      · rw [if_pos h4]; rfl
      rw [if_neg h4]
      by_cases h5 : (truthyFlag (lookupFlag (lineFlags (stripSudo (trimStr raw2)))
          (S "reload")) ||
          truthyFlag (lookupFlag (lineFlags (stripSudo (trimStr raw2)))
            (S "complete-reload"))) = true
      · rw [if_pos h5]; rfl
      rw [if_neg h5]
      by_cases h6 : isSkippable (lineFlags (stripSudo (trimStr raw2))) = true
      · rw [if_pos h6]; rfl
      rw [if_neg h6]
      by_cases h7 : truthyFlag (lookupFlag (lineFlags (stripSudo (trimStr raw2)))
          (S "direct")) = true
      · rw [if_pos h7]
        cases processDirectCommand cfg2.direct (lineFlags (stripSudo (trimStr raw2)))
            (tokenizeLine (stripSudo (trimStr raw2))) with
        | none => rfl
        | some d' => rfl
      rw [if_neg h7]
      have hz2 : zoneNameOf (lineFlags (stripSudo (trimStr raw2))) = none := by
        simp [zoneNameOf, hnz2, hnm2]
      simp only [hz2]
      rfl
    · rw [if_pos h3]
      rfl

/-- A zone-less modifying line. -/
def c8Mod : Str := S "firewall-cmd --permanent --add-service=http"

/-- A zone-less non-modifying (query) line. -/
def c8Query : Str := S "firewall-cmd --permanent --list-all"

/-- Concrete instance of the default-zone boundary theorem. -/
theorem classifyLine_default_zone_witness :
    ((S "firewall-cmd").isPrefixOf (stripSudo (trimStr c8Mod)) = true ∧
     hasShellVar (stripSudo (trimStr c8Mod)) = false ∧
     lookupFlag (lineFlags (stripSudo (trimStr c8Mod))) (S "zone") = none ∧
     hasModifying (lineFlags (stripSudo (trimStr c8Mod))) = true ∧
     (truthyFlag (lookupFlag (lineFlags (stripSudo (trimStr c8Mod))) (S "reload")) ||
       truthyFlag (lookupFlag (lineFlags (stripSudo (trimStr c8Mod)))
         (S "complete-reload"))) = false ∧
     isSkippable (lineFlags (stripSudo (trimStr c8Mod))) = false ∧
     truthyFlag (lookupFlag (lineFlags (stripSudo (trimStr c8Mod))) (S "direct")) = false ∧
     (processZoneCommand ({} : RZone)
       (removeFlag (lineFlags (stripSudo (trimStr c8Mod))) (S "zone"))).isSome = true ∧
     lookupFlag (lineFlags (stripSudo (trimStr c8Query))) (S "zone") = none ∧
     hasModifying (lineFlags (stripSudo (trimStr c8Query))) = false) ∧
    ((∃ c', (classifyLine {} c8Mod = LineRes.newCfg c' ∨
             classifyLine {} c8Mod = LineRes.errCfg EKind.badZone c') ∧
        (∃ z, (S "public", z) ∈ c'.zones) ∧
        (∀ p : Str × RZone, p.1 ≠ S "public" → (p ∈ c'.zones ↔ p ∈ ({} : RState).zones)) ∧
        c'.direct = ({} : RState).direct) ∧
     (cfgAfter {} (classifyLine {} c8Query)).zones = ({} : RState).zones) :=
  ⟨⟨by decide, by decide, by decide, by decide, by decide, by decide, by decide, by decide,
    by decide, by decide⟩,
   classifyLine_default_zone {} {} c8Mod c8Query (by decide) (by decide) (by decide)
     (by decide) (by decide) (by decide) (by decide) (by decide) (by decide) (by decide)⟩

/-! ## Merger (part_005) and C6 -/

/-- `portKey` of the merger: `port/protocol` with the tcp default for
object entries, the string itself otherwise. -/
def portKey (p : PortE) : Str :=
  match p with
  | PortE.pobj port protocol => port ++ S "/" ++ protoD protocol
  | PortE.pstr s => s

/-- `stringKey` of the merger: `String(v.value)` for objects, the
string itself otherwise (the same computation as zElemVal). -/
def stringKey (v : ZElem) : Str := zElemVal v

/-- `forwardPortKey` of the merger. -/
def forwardPortKey (fp : FPE) : Str :=
  fp.port ++ S "/" ++ protoD fp.protocol ++ S "/" ++ fp.to_port.getD [] ++ S "/" ++
    fp.to_addr.getD []

/-- `richRuleKey` of the merger: `JSON.stringify` is injective on the
rule objects, so the key is modelled as the rule itself. -/
def richRuleKey (r : RichRule) : RichRule := r

/-- `chainKey` of mergeDirect. -/
def chainKey (c : DChain) : Str := c.ipv ++ S "|" ++ c.table ++ S "|" ++ c.chain

/-- `ruleKey` of mergeDirect. -/
def ruleKey (r : DRule) : Str :=
  r.ipv ++ S "|" ++ r.table ++ S "|" ++ r.chain ++ S "|" ++ S (toString r.priority) ++
    S "|" ++ r.args

/-- `ptKey` of mergeDirect. -/
def ptKey (p : DPass) : Str := p.ipv ++ S "|" ++ p.args

/-- The shared array-field step of mergeZone/mergeDirect: when either
side is nonempty, concatenate and deduplicate; otherwise keep the
current value. -/
def mergedArr {α β : Type} [DecidableEq β] (key : α → β) (a b : List α)
    (cur : Option (List α)) : Option (List α) :=
  if a.length > 0 ∨ b.length > 0 then some (dedup key (a ++ b)) else cur

/-- The scalar half of mergeZone: incoming wins when defined. -/
def mergeScalars (m incoming : GZone) : GZone :=
  let m := match incoming.target with | some t => { m with target := some t } | none => m
  let m := match incoming.forward with | some v => { m with forward := some v } | none => m
  let m := match incoming.masquerade with
    | some v => { m with masquerade := some v }
    | none => m
  match incoming.icmp_block_inversion with
  | some v => { m with icmp_block_inversion := some v }
  | none => m

/-- `mergeZone` of part_005: scalars from incoming when defined, array
fields concatenated (reading the existing side's arrays) and
deduplicated under the field's key function. -/
def mergeZone (existing incoming : GZone) : GZone :=
  let m := mergeScalars existing incoming
  { m with
    interfaces := mergedArr stringKey (existing.interfaces.getD [])
      (incoming.interfaces.getD []) m.interfaces,
    sources := mergedArr stringKey (existing.sources.getD [])
      (incoming.sources.getD []) m.sources,
    services := mergedArr stringKey (existing.services.getD [])
      (incoming.services.getD []) m.services,
    ports := mergedArr portKey (existing.ports.getD [])
      (incoming.ports.getD []) m.ports,
    protocols := mergedArr stringKey (existing.protocols.getD [])
      (incoming.protocols.getD []) m.protocols,
    source_ports := mergedArr portKey (existing.source_ports.getD [])
      (incoming.source_ports.getD []) m.source_ports,
    rich_rules := mergedArr richRuleKey (existing.rich_rules.getD [])
      (incoming.rich_rules.getD []) m.rich_rules,
    forward_ports := mergedArr forwardPortKey (existing.forward_ports.getD [])
      (incoming.forward_ports.getD []) m.forward_ports,
    icmp_blocks := mergedArr stringKey (existing.icmp_blocks.getD [])
      (incoming.icmp_blocks.getD []) m.icmp_blocks }

/-- `mergeDirect` of part_005: a fresh object, array fields
concatenated and deduplicated, existing rule_groups carried over. -/
def mergeDirect (existing incoming : TDirect) : TDirect :=
  { chains := mergedArr chainKey (existing.chains.getD []) (incoming.chains.getD []) none,
    rules := mergedArr ruleKey (existing.rules.getD []) (incoming.rules.getD []) none,
    passthroughs := mergedArr ptKey (existing.passthroughs.getD [])
      (incoming.passthroughs.getD []) none,
    rule_groups := existing.rule_groups }

/-- A configuration as consumed by the merger. -/
structure MConfig where
  variablesMap : Option Vars := none
  zones : Option (List (Str × GZone)) := none
  direct : Option TDirect := none
deriving DecidableEq

/-- One step of the zone-merging loop: merge into the existing entry of
the same name, or append. -/
def upsertZone (zs : List (Str × GZone)) (name : Str) (z : GZone) : List (Str × GZone) :=
  if zs.any fun kv => kv.1 = name then
    zs.map fun kv => if kv.1 = name then (name, mergeZone kv.2 z) else kv
  else zs ++ [(name, z)]

/-- `mergeConfigs` of part_005: start from existing, merge zones
per-zone, then merge the direct blocks. -/
def mergeConfigs (existing incoming : MConfig) : MConfig :=
  let merged := existing
  let merged :=
    match incoming.zones with
    | none => merged
    | some izs =>
      { merged with
        zones := some (izs.foldl (fun acc nz => upsertZone acc nz.1 nz.2)
          (merged.zones.getD [])) }
  match incoming.direct with
  | none => merged
  | some idir =>
    match merged.direct with
    | some edir => { merged with direct := some (mergeDirect edir idir) }
    | none => { merged with direct := some idir }

/-- The seen set after one dedup pass. -/
def dedupSeen {α β : Type} [DecidableEq β] (key : α → β) : List β → List α → List β
  | seen, [] => seen
  | seen, x :: xs =>
    if key x ∈ seen then dedupSeen key seen xs else dedupSeen key (key x :: seen) xs

theorem dedupKey_append {α β : Type} [DecidableEq β] (key : α → β) :
    ∀ (l1 l2 : List α) (seen : List β),
      dedupKey key seen (l1 ++ l2) =
        dedupKey key seen l1 ++ dedupKey key (dedupSeen key seen l1) l2 := by
  intro l1
  induction l1 with
  | nil => intro l2 seen; simp [dedupKey, dedupSeen]
  | cons x xs ih =>
    intro l2 seen
    simp only [List.cons_append, dedupKey, dedupSeen]
    by_cases hx : key x ∈ seen
    · simp only [if_pos hx]
      exact ih l2 seen
    · simp only [if_neg hx]
      show x :: dedupKey key (key x :: seen) (xs ++ l2) =
        x :: dedupKey key (key x :: seen) xs ++
          dedupKey key (dedupSeen key (key x :: seen) xs) l2
      rw [ih l2 (key x :: seen), List.cons_append]

theorem mem_dedupSeen_super {α β : Type} [DecidableEq β] (key : α → β) :
    ∀ (l : List α) (seen : List β) (b : β), b ∈ seen → b ∈ dedupSeen key seen l := by
  intro l
  induction l with
  | nil => intro seen b hb; exact hb
  | cons x xs ih =>
    intro seen b hb
    simp only [dedupSeen]
    by_cases hx : key x ∈ seen
    · rw [if_pos hx]; exact ih seen b hb
    · rw [if_neg hx]; exact ih _ b (List.mem_cons_of_mem _ hb)

theorem key_mem_dedupSeen {α β : Type} [DecidableEq β] (key : α → β) :
    ∀ (l : List α) (seen : List β) (x : α), x ∈ l → key x ∈ dedupSeen key seen l := by
  intro l
  induction l with
  | nil => intro seen x hx; simp at hx
  | cons y ys ih =>
    intro seen x hx
    simp only [dedupSeen]
    rcases List.mem_cons.mp hx with rfl | hmem
    · by_cases hy : key x ∈ seen
      · rw [if_pos hy]; exact mem_dedupSeen_super key ys seen _ hy
      · rw [if_neg hy]; exact mem_dedupSeen_super key ys _ _ (List.mem_cons_self _ _)
    · by_cases hy : key y ∈ seen
      · rw [if_pos hy]; exact ih seen x hmem
      · rw [if_neg hy]; exact ih _ x hmem

theorem dedupKey_all_seen {α β : Type} [DecidableEq β] (key : α → β) :
    ∀ (l : List α) (seen : List β), (∀ x ∈ l, key x ∈ seen) → dedupKey key seen l = [] := by
  intro l
  induction l with
  | nil => intro seen h; rfl
  | cons x xs ih =>
    intro seen h
    simp only [dedupKey]
    rw [if_pos (h x (List.mem_cons_self _ _))]
    exact ih seen fun y hy => h y (List.mem_cons_of_mem _ hy)

/-- Deduplicating a list appended to itself gives the deduplication of
the list. -/
theorem dedup_self_append {α β : Type} [DecidableEq β] (key : α → β) (l : List α) :
    dedup key (l ++ l) = dedup key l := by
  unfold dedup
  rw [dedupKey_append,
    dedupKey_all_seen key l (dedupSeen key [] l) (fun x hx => key_mem_dedupSeen key l [] x hx)]
  simp

theorem mergedArr_getD_self {α β : Type} [DecidableEq β] (key : α → β)
    (f cur : Option (List α)) (hcur : f.getD [] = [] → cur.getD [] = []) :
    (mergedArr key (f.getD []) (f.getD []) cur).getD [] = dedup key (f.getD []) := by
  unfold mergedArr
  by_cases h : (f.getD []).length > 0 ∨ (f.getD []).length > 0
  · rw [if_pos h]
    simp [dedup_self_append]
  · rw [if_neg h]
    have hnil : f.getD [] = [] := by
      rcases Nat.eq_zero_or_pos (f.getD []).length with h0 | hp
      · exact List.length_eq_zero.mp h0
      · exact absurd (Or.inl hp) h
    rw [hcur hnil, hnil]
    rfl

theorem mergeScalars_arrays (m i : GZone) :
    (mergeScalars m i).interfaces = m.interfaces ∧ (mergeScalars m i).sources = m.sources ∧
    (mergeScalars m i).services = m.services ∧ (mergeScalars m i).ports = m.ports ∧
    (mergeScalars m i).protocols = m.protocols ∧
    (mergeScalars m i).source_ports = m.source_ports ∧
    (mergeScalars m i).rich_rules = m.rich_rules ∧
    (mergeScalars m i).forward_ports = m.forward_ports ∧
    (mergeScalars m i).icmp_blocks = m.icmp_blocks := by
  unfold mergeScalars
  cases i.target <;> cases i.forward <;> cases i.masquerade <;>
    cases i.icmp_block_inversion <;> simp

theorem mergeScalars_self (z : GZone) :
    (mergeScalars z z).target = z.target ∧ (mergeScalars z z).forward = z.forward ∧
    (mergeScalars z z).masquerade = z.masquerade ∧
    (mergeScalars z z).icmp_block_inversion = z.icmp_block_inversion := by
  unfold mergeScalars
  cases ht : z.target <;> cases hf : z.forward <;> cases hm : z.masquerade <;>
    cases hi : z.icmp_block_inversion <;> simp [ht, hf, hm, hi]

/-- Merging a zone with itself keeps the scalars and replaces each
array field by the deduplication of the zone's own array. -/
theorem mergeZone_self (z : GZone) :
    (mergeZone z z).target = z.target ∧
    (mergeZone z z).forward = z.forward ∧
    (mergeZone z z).masquerade = z.masquerade ∧
    (mergeZone z z).icmp_block_inversion = z.icmp_block_inversion ∧
    (mergeZone z z).interfaces.getD [] = dedup stringKey (z.interfaces.getD []) ∧
    (mergeZone z z).sources.getD [] = dedup stringKey (z.sources.getD []) ∧
    (mergeZone z z).services.getD [] = dedup stringKey (z.services.getD []) ∧
    (mergeZone z z).ports.getD [] = dedup portKey (z.ports.getD []) ∧
    (mergeZone z z).protocols.getD [] = dedup stringKey (z.protocols.getD []) ∧
    (mergeZone z z).source_ports.getD [] = dedup portKey (z.source_ports.getD []) ∧
    (mergeZone z z).rich_rules.getD [] = dedup richRuleKey (z.rich_rules.getD []) ∧
    (mergeZone z z).forward_ports.getD [] = dedup forwardPortKey (z.forward_ports.getD []) ∧
    (mergeZone z z).icmp_blocks.getD [] = dedup stringKey (z.icmp_blocks.getD []) := by
  obtain ⟨h1, h2, h3, h4, h5, h6, h7, h8, h9⟩ := mergeScalars_arrays z z
  obtain ⟨s1, s2, s3, s4⟩ := mergeScalars_self z
  unfold mergeZone
  refine ⟨s1, s2, s3, s4, ?_, ?_, ?_, ?_, ?_, ?_, ?_, ?_, ?_⟩
  · exact mergedArr_getD_self stringKey z.interfaces _ (fun hf => by rw [h1, hf])
  · exact mergedArr_getD_self stringKey z.sources _ (fun hf => by rw [h2, hf])
  · exact mergedArr_getD_self stringKey z.services _ (fun hf => by rw [h3, hf])
  · exact mergedArr_getD_self portKey z.ports _ (fun hf => by rw [h4, hf])
  · exact mergedArr_getD_self stringKey z.protocols _ (fun hf => by rw [h5, hf])
  · exact mergedArr_getD_self portKey z.source_ports _ (fun hf => by rw [h6, hf])
  · exact mergedArr_getD_self richRuleKey z.rich_rules _ (fun hf => by rw [h7, hf])
  · exact mergedArr_getD_self forwardPortKey z.forward_ports _ (fun hf => by rw [h8, hf])
  · exact mergedArr_getD_self stringKey z.icmp_blocks _ (fun hf => by rw [h9, hf])

/-- Merging a direct block with itself deduplicates each array by its
key and preserves rule_groups verbatim. -/
theorem mergeDirect_self (d : TDirect) :
    (mergeDirect d d).chains.getD [] = dedup chainKey (d.chains.getD []) ∧
    (mergeDirect d d).rules.getD [] = dedup ruleKey (d.rules.getD []) ∧
    (mergeDirect d d).passthroughs.getD [] = dedup ptKey (d.passthroughs.getD []) ∧
    (mergeDirect d d).rule_groups = d.rule_groups :=
  ⟨mergedArr_getD_self chainKey d.chains none (fun _ => rfl),
   mergedArr_getD_self ruleKey d.rules none (fun _ => rfl),
   mergedArr_getD_self ptKey d.passthroughs none (fun _ => rfl),
   rfl⟩

theorem map_id_of_ne {g : Str × GZone → Str × GZone} (n : Str)
    (hg : ∀ kv, kv.1 ≠ n → g kv = kv) :
    ∀ A : List (Str × GZone), (∀ kv ∈ A, kv.1 ≠ n) → A.map g = A := by
  intro A
  induction A with
  | nil => intro h; rfl
  | cons a A ih =>
    intro h
    simp only [List.map_cons]
    rw [hg a (h a (List.mem_cons_self _ _)),
      ih fun kv hkv => h kv (List.mem_cons_of_mem _ hkv)]

theorem foldl_upsert_self :
    ∀ (todo done : List (Str × GZone)),
      ((done ++ todo).map Prod.fst).Nodup →
      todo.foldl (fun acc nz => upsertZone acc nz.1 nz.2)
          (done.map (fun nz => (nz.1, mergeZone nz.2 nz.2)) ++ todo) =
        (done ++ todo).map fun nz => (nz.1, mergeZone nz.2 nz.2) := by
  intro todo
  induction todo with
  | nil => intro done h; simp
  | cons x xs ih =>
    intro done h
    obtain ⟨n, z⟩ := x
    have hkeys := h
    rw [List.map_append] at hkeys
    obtain ⟨hd1, hd2, hdisj⟩ := List.nodup_append.mp hkeys
    have hnxs : n ∉ xs.map Prod.fst := by
      simp only [List.map_cons] at hd2
      exact (List.nodup_cons.mp hd2).1
    have hndone : n ∉ done.map Prod.fst := by
      intro hmem
      exact hdisj hmem (List.mem_map_of_mem Prod.fst (List.mem_cons_self _ _))
    have hstep : upsertZone
        (done.map (fun nz => (nz.1, mergeZone nz.2 nz.2)) ++ (n, z) :: xs) n z =
        (done ++ [(n, z)]).map (fun nz => (nz.1, mergeZone nz.2 nz.2)) ++ xs := by
      unfold upsertZone
      rw [if_pos (List.any_eq_true.mpr
        ⟨(n, z), List.mem_append_right _ (List.mem_cons_self _ _), by simp⟩)]
      rw [List.map_append, List.map_cons]
      rw [map_id_of_ne n (fun kv hkv => if_neg hkv) (done.map _) ?hdm,
          map_id_of_ne n (fun kv hkv => if_neg hkv) xs ?hxs, if_pos rfl]
      case hdm =>
        intro kv hkv
        obtain ⟨nz0, hnz0, hkv2⟩ := List.mem_map.mp hkv
        intro hc
        apply hndone
        rw [← hkv2] at hc
        simp at hc
        rw [← hc]
        exact List.mem_map_of_mem Prod.fst hnz0
      case hxs =>
        intro kv hkv hc
        apply hnxs
        rw [← hc]
        exact List.mem_map_of_mem Prod.fst hkv
      simp [List.map_append]
    show xs.foldl (fun acc nz => upsertZone acc nz.1 nz.2)
        (upsertZone (done.map (fun nz => (nz.1, mergeZone nz.2 nz.2)) ++ (n, z) :: xs) n z) =
      (done ++ (n, z) :: xs).map fun nz => (nz.1, mergeZone nz.2 nz.2)
    rw [hstep]
    have hih := ih (done ++ [(n, z)])
      (by rw [List.append_assoc, List.singleton_append]; exact h)
    rw [List.append_assoc, List.singleton_append] at hih
    exact hih

/-- C6: self-merge dedup law.  Merging a configuration with itself
keeps variables verbatim, replaces every zone entry by the self-merged
zone and the direct block by the self-merged direct block; a
self-merged zone keeps its scalars and deduplicates every array field
under the field's key, and a self-merged direct block deduplicates
chains/rules/passthroughs and preserves rule_groups verbatim.  Zone
names are assumed distinct (JS objects cannot hold duplicate keys). -/
theorem mergeConfigs_self_dedup (C : MConfig)
    (hnd : ((C.zones.getD []).map Prod.fst).Nodup) :
    mergeConfigs C C =
      { variablesMap := C.variablesMap,
        zones := Option.map (List.map fun nz => (nz.1, mergeZone nz.2 nz.2)) C.zones,
        direct := Option.map (fun d => mergeDirect d d) C.direct } ∧
    (∀ z : GZone,
      (mergeZone z z).target = z.target ∧
      (mergeZone z z).forward = z.forward ∧
      (mergeZone z z).masquerade = z.masquerade ∧
      (mergeZone z z).icmp_block_inversion = z.icmp_block_inversion ∧
      (mergeZone z z).interfaces.getD [] = dedup stringKey (z.interfaces.getD []) ∧
      (mergeZone z z).sources.getD [] = dedup stringKey (z.sources.getD []) ∧
      (mergeZone z z).services.getD [] = dedup stringKey (z.services.getD []) ∧
      (mergeZone z z).ports.getD [] = dedup portKey (z.ports.getD []) ∧
      (mergeZone z z).protocols.getD [] = dedup stringKey (z.protocols.getD []) ∧
      (mergeZone z z).source_ports.getD [] = dedup portKey (z.source_ports.getD []) ∧
      (mergeZone z z).rich_rules.getD [] = dedup richRuleKey (z.rich_rules.getD []) ∧
      (mergeZone z z).forward_ports.getD [] =
        dedup forwardPortKey (z.forward_ports.getD []) ∧
      (mergeZone z z).icmp_blocks.getD [] = dedup stringKey (z.icmp_blocks.getD [])) ∧
    (∀ d : TDirect,
      (mergeDirect d d).chains.getD [] = dedup chainKey (d.chains.getD []) ∧
      (mergeDirect d d).rules.getD [] = dedup ruleKey (d.rules.getD []) ∧
      (mergeDirect d d).passthroughs.getD [] = dedup ptKey (d.passthroughs.getD []) ∧
      (mergeDirect d d).rule_groups = d.rule_groups) := by
  refine ⟨?_, mergeZone_self, mergeDirect_self⟩
  obtain ⟨v, zo, dir⟩ := C
  cases zo with
  | none =>
    cases dir with
    | none => rfl
    | some d => rfl
  | some zs =>
    have hfold := foldl_upsert_self zs [] hnd
    simp only [List.map_nil, List.nil_append] at hfold
    cases dir with
    | none =>
      simp only [mergeConfigs, Option.getD, Option.map]
      rw [hfold]
    | some d =>
      simp only [mergeConfigs, Option.getD, Option.map]
      rw [hfold]

/-- A zone with duplicate service and port entries (the two port
entries share the key `80/tcp`). -/
def c6Zone : GZone :=
  { target := some (S "DROP"),
    services := some [ZElem.plain (S "ssh"), ZElem.plain (S "ssh"), ZElem.plain (S "http")],
    ports := some [PortE.pobj (S "80") none, PortE.pstr (S "80/tcp")] }

/-- A direct block with a duplicate chain and a rule_groups key. -/
def c6Direct : TDirect :=
  ⟨some [⟨S "ipv4", S "filter", S "X"⟩, ⟨S "ipv4", S "filter", S "X"⟩], none, none, some []⟩

/-- The concrete configuration of the self-merge witness. -/
def c6Config : MConfig :=
  { variablesMap := some [(S "v", VarVal.vstr (S "x"))],
    zones := some [(S "public", c6Zone)],
    direct := some c6Direct }

/-- Concrete instance of the self-merge dedup law. -/
theorem mergeConfigs_self_dedup_witness :
    ((c6Config.zones.getD []).map Prod.fst).Nodup ∧
    (mergeConfigs c6Config c6Config =
      { variablesMap := c6Config.variablesMap,
        zones := Option.map (List.map fun nz => (nz.1, mergeZone nz.2 nz.2)) c6Config.zones,
        direct := Option.map (fun d => mergeDirect d d) c6Config.direct } ∧
     (∀ z : GZone,
       (mergeZone z z).target = z.target ∧
       (mergeZone z z).forward = z.forward ∧
       (mergeZone z z).masquerade = z.masquerade ∧
       (mergeZone z z).icmp_block_inversion = z.icmp_block_inversion ∧
       (mergeZone z z).interfaces.getD [] = dedup stringKey (z.interfaces.getD []) ∧
       (mergeZone z z).sources.getD [] = dedup stringKey (z.sources.getD []) ∧
       (mergeZone z z).services.getD [] = dedup stringKey (z.services.getD []) ∧
       (mergeZone z z).ports.getD [] = dedup portKey (z.ports.getD []) ∧
       (mergeZone z z).protocols.getD [] = dedup stringKey (z.protocols.getD []) ∧
       (mergeZone z z).source_ports.getD [] = dedup portKey (z.source_ports.getD []) ∧
       (mergeZone z z).rich_rules.getD [] = dedup richRuleKey (z.rich_rules.getD []) ∧
       (mergeZone z z).forward_ports.getD [] =
         dedup forwardPortKey (z.forward_ports.getD []) ∧
       (mergeZone z z).icmp_blocks.getD [] = dedup stringKey (z.icmp_blocks.getD [])) ∧
     (∀ d : TDirect,
       (mergeDirect d d).chains.getD [] = dedup chainKey (d.chains.getD []) ∧
       (mergeDirect d d).rules.getD [] = dedup ruleKey (d.rules.getD []) ∧
       (mergeDirect d d).passthroughs.getD [] = dedup ptKey (d.passthroughs.getD []) ∧
       (mergeDirect d d).rule_groups = d.rule_groups)) :=
  ⟨by decide, mergeConfigs_self_dedup c6Config (by decide)⟩

end Firegen
